import Mathlib

/-!
Verification of the cicada-2 test execution engine.

This file gives a shallow embedding of the three engine modules
(`cicada2/engine/messaging.py`, `cicada2/engine/testing.py`,
`cicada2/engine/runners.py`) and proves or refutes the frozen claims about
them.  Pure functions from the source are translated into Lean functions;
the mutable Python state (dicts shared by aliasing) is made explicit by
threading both the working state and the view the caller retains of its
own mapping; remote gRPC calls, Docker and Kubernetes API calls are
abstracted into oracle parameters, exactly mirroring the dependency
injection already present in the source (`create_runner_fn`,
`remove_runner_fn`, `get_runner_hostname_fn` are parameters of
`runners.run_test`).  Helper modules of the repository that are not part
of the three source files (`create_item_name`, `get_remaining_asserts`,
`run_actions`, `run_asserts`, `combine_action_data`,
`combine_data_by_key`, `render_section`) are modelled from the
specification and flagged as such in their doc comments.
-/

namespace Cicada

/-! ## Data model (spec section 3, `cicada2.shared.types`) -/

/-- Per-assert status record: mirrors the dictionary built by
`messaging.send_assert` and stored in state under the assert name.
`actual`, `expected` and `description` may be null in Python, hence
`Option`. -/
structure AssertStatus where
  passed : Bool
  actual : Option String
  expected : Option String
  description : Option String
deriving DecidableEq, Repr

/-- An assert document.  In the source this is a dict; `type` and `name`
may be absent, hence `Option`. -/
structure Assert where
  type? : Option String := none
  name? : Option String := none
deriving DecidableEq, Repr

/-- An action document.  In the source this is a dict; `type` and `name`
may be absent.  `asserts` is the list of inner asserts. -/
structure Action where
  type? : Option String := none
  name? : Option String := none
  asserts : List Assert := []
deriving DecidableEq, Repr

/-- Python reads `action["name"]` / `asrt["name"]` after the validation
pass has assigned names; a missing name would be a KeyError.  We read it
with an empty-string default. -/
def Assert.getName (a : Assert) : String := a.name?.getD ""

def Action.getName (a : Action) : String := a.name?.getD ""

/-- Mapping assert-name to status (Python `Statuses`). -/
def Statuses : Type := String → Option AssertStatus

/-- Per-action state: outputs mapping and inner assert statuses. -/
structure ActionData where
  outputs : String → Option String
  asserts : Statuses

/-- Mapping action-name to `ActionData`. -/
def ActionsData : Type := String → Option ActionData

def emptyStatuses : Statuses := fun _ => none

def emptyActionsData : ActionsData := fun _ => none

/-- A volume mount request (Python `Volume`). -/
structure Volume where
  source : String
  destination : String
deriving DecidableEq, Repr

/-- Test configuration (spec section 3).  Optional fields are `Option`;
times are kept as naturals (sleeping is not modelled). -/
structure TestConfig where
  name : String
  description? : Option String := none
  filename? : Option String := none
  runner? : Option String := none
  image? : Option String := none
  config : List (String × String) := []
  runnerCount? : Option Nat := none
  volumes : List Volume := []
  cycles? : Option Int := none
  secondsBetweenActions? : Option Nat := none
  secondsBetweenAsserts? : Option Nat := none
  secondsBetweenCycles? : Option Nat := none
  timeout? : Option Int := none
  actionDistributionStrategy? : Option String := none
  assertDistributionStrategy? : Option String := none
  actions : List Action := []
  asserts : List Assert := []

/-- Test summary record.  `duration` is wall-clock time in the source
(`datetime.now() - start_time`); wall-clock time is not modelled, so the
embedding always records 0. -/
structure TestSummary where
  description? : Option String
  completed_cycles : Nat
  remaining_asserts : List String
  error? : Option String
  duration : Nat
  filename? : Option String
deriving DecidableEq, Repr

/-- One entry of the state mapping (the nested dict under a test name).
The engine touches only the keys `actions`, `asserts` and `summary`. -/
structure TestEntry where
  actions? : Option ActionsData := none
  asserts? : Option Statuses := none
  summary? : Option TestSummary := none

/-- The accumulating state: test-name keyed mapping. -/
def EngineState : Type := String → Option TestEntry

/-- Read of `state[name]` on the `defaultdict(dict, ...)`: a missing key
yields an empty entry. -/
def entryAt (st : EngineState) (n : String) : TestEntry := (st n).getD {}

def TestEntry.actionsData (e : TestEntry) : ActionsData := e.actions?.getD emptyActionsData

def TestEntry.assertStatuses (e : TestEntry) : Statuses := e.asserts?.getD emptyStatuses

/-- Functional write of one entry of the state mapping. -/
def setEntry (st : EngineState) (n : String) (e : TestEntry) : EngineState :=
  fun m => if m = n then some e else st m

/-! ## Messaging client (`cicada2/engine/messaging.py`) -/

/-- A gRPC transport error (`grpc.RpcError`), carrying `code()` and
`details()`. -/
structure RpcError where
  code : String
  details : String
deriving DecidableEq, Repr

structure ActionReply where
  outputs : String
deriving DecidableEq, Repr

structure AssertReply where
  passed : Bool
  actual : String
  expected : String
  description : String
deriving DecidableEq, Repr

structure HealthcheckReply where
  ready : Bool
deriving DecidableEq, Repr

/-- `messaging.send_action`: build the request, call the stub; on success
parse the JSON body of `response.outputs` (the JSON parser is abstracted
as the total function `parse`); on `grpc.RpcError` log and return the
empty mapping.  The transport outcome of `stub.Action(request)` is the
explicit argument `transport`. -/
def send_action (parse : String → List (String × String))
    (transport : Except RpcError ActionReply) : List (String × String) :=
  match transport with
  | .ok response => parse response.outputs
  | .error _ => []

/-- `messaging.send_assert`: on success copy the four reply fields; on
`grpc.RpcError` return a failing status whose description is
`err.details()`. -/
def send_assert (transport : Except RpcError AssertReply) : AssertStatus :=
  match transport with
  | .ok response =>
      { passed := response.passed
        actual := some response.actual
        expected := some response.expected
        description := some response.description }
  | .error err =>
      { passed := false
        actual := none
        expected := none
        description := some err.details }

/-- `messaging.runner_healthcheck`: `response.ready` on success, `false`
on any `grpc.RpcError`. -/
def runner_healthcheck (transport : Except RpcError HealthcheckReply) : Bool :=
  match transport with
  | .ok response => response.ready
  | .error _ => false

/-! ## Shared helpers modelled from the spec (modules not under src/) -/

/-- Modelled from the spec: `cicada2.shared.asserts.get_remaining_asserts`
is not under src/.  Spec section 3: an assert is satisfied when
`passed == true` for any recorded status under its name, and
`get_remaining_asserts(asserts, statuses) = [a in asserts where
statuses[a.name].passed != true]`. -/
def assertSatisfied (statuses : Statuses) (n : String) : Bool :=
  ((statuses n).map (·.passed)).getD false

/-- Modelled from the spec: see `assertSatisfied`. -/
def get_remaining_asserts (asserts : List Assert) (statuses : Statuses) : List Assert :=
  asserts.filter (fun a => !assertSatisfied statuses a.getName)

/-- Little-endian decimal digits, with an explicit fuel bound so the
definition is structural (and hence evaluates inside the kernel); the
fuel `n` always suffices. -/
def digitsFuel : Nat → Nat → List Nat
  | 0, _ => []
  | _ + 1, 0 => []
  | fuel + 1, n + 1 => ((n + 1) % 10) :: digitsFuel fuel ((n + 1) / 10)

/-- Little-endian decimal digits of a natural number. -/
def natDigits (n : Nat) : List Nat := digitsFuel n n

/-- Decimal rendering of a natural number, standing in for the Python
f-string interpolation of an int. -/
def natToStr (n : Nat) : String :=
  if n = 0 then "0" else String.mk ((natDigits n).reverse.map Nat.digitChar)

/-- Candidate name number `i` for base name `t`: the bare type for
`i = 0`, then `t1`, `t2`, ... -/
def suffixName (t : String) (i : Nat) : String :=
  if i = 0 then t else t ++ natToStr i

/-- Modelled from the spec: `cicada2.engine.state.create_item_name` is not
under src/.  Spec section 9: a deterministic naming helper that, given an
existing name set and a base type, returns the smallest non-colliding
suffix (Type, Type1, Type2, ...).  Among the first `names.length + 1`
candidates one is always free (they are pairwise distinct), so the
fallback branch is unreachable. -/
def create_item_name (t : String) (names : List String) : String :=
  match ((List.range (names.length + 1)).map (suffixName t)).find? (fun c => !names.contains c) with
  | some c => c
  | none => t

/-! ## Cycle predicates (`cicada2/engine/testing.py`) -/

/-- `testing.action_has_asserts`: `action.get("asserts", []) != []`. -/
def action_has_asserts (a : Action) : Bool := !a.asserts.isEmpty

/-- `testing.actions_have_asserts`. -/
def actions_have_asserts (actions : List Action) : Bool :=
  actions.any action_has_asserts

/-- `testing.get_default_cycles`: unlimited (-1) if there are asserts or
action asserts, one cycle if only actions, otherwise zero. -/
def get_default_cycles (actions : List Action) (asserts : List Assert) : Int :=
  if !asserts.isEmpty || actions_have_asserts actions then -1
  else if !actions.isEmpty then 1
  else 0

/-- Inner assert statuses of one action inside `ActionsData`, following
`actions_data.get(action["name"], {}).get("asserts", {})`. -/
def innerStatuses (data : ActionsData) (a : Action) : Statuses :=
  match data a.getName with
  | some d => d.asserts
  | none => emptyStatuses

/-- `testing.continue_running`, translated clause by clause from the
source boolean expression. -/
def continue_running (actions : List Action) (asserts : List Assert)
    (remaining_cycles : Int) (actions_data : ActionsData)
    (assert_statuses : Statuses) : Bool :=
  (asserts.isEmpty && !actions_have_asserts actions && remaining_cycles != 0)
  ||
  ((!asserts.isEmpty || actions_have_asserts actions)
    && remaining_cycles != 0
    && (!(get_remaining_asserts asserts assert_statuses).isEmpty
        || actions.any (fun a =>
             !(get_remaining_asserts a.asserts (innerStatuses actions_data a)).isEmpty)))

/-! ## Merging (modelled from the spec, `cicada2.engine.actions` /
`cicada2.engine.state` are not under src/) -/

/-- Modelled from the spec: merge of two optional assert statuses where
a satisfied (`passed: true`) status is preserved over a later one of the
same name (spec section 4.3). -/
def combineStatus : Option AssertStatus → Option AssertStatus → Option AssertStatus
  | some s, some t => some (if s.passed then s else t)
  | some s, none => some s
  | none, t => t

/-- Modelled from the spec: `cicada2.engine.state.combine_data_by_key`,
a deterministic associative merge over status maps where passed sticks
once true. -/
def combine_data_by_key (a b : Statuses) : Statuses :=
  fun n => combineStatus (a n) (b n)

/-- Modelled from the spec: per-key last-write-wins merge of action
outputs (spec section 4.3). -/
def combineOutputs (a b : String → Option String) : String → Option String :=
  fun k => match b k with
  | some v => some v
  | none => a k

/-- Modelled from the spec: `cicada2.engine.actions.combine_action_data`:
deterministic merge over nested maps, most-recent wins for outputs,
passed sticks once true for inner assert statuses. -/
def combine_action_data (a b : ActionsData) : ActionsData :=
  fun n =>
    match a n, b n with
    | some x, some y =>
        some { outputs := combineOutputs x.outputs y.outputs
               asserts := combine_data_by_key x.asserts y.asserts }
    | some x, none => some x
    | none, y => y

/-! ## Runner oracle and per-hostname dispatch (modelled from the spec) -/

/-- Outcomes of the remote runner RPCs, abstracting the gRPC round trips
performed by `run_actions` / `run_asserts` on one hostname. -/
structure RunnerOracle where
  actionOutputs : String → Action → (String → Option String)
  assertStatus : String → Assert → AssertStatus

/-- Functional update of a status map. -/
def putStatus (st : Statuses) (n : String) (s : AssertStatus) : Statuses :=
  fun m => if m = n then some s else st m

/-- Modelled from the spec: `cicada2.engine.asserts.run_asserts` is not
under src/.  Spec section 4.3: for each assert in the list, send it to
`hostname` and record the status under the assert name (sleeping between
calls is not modelled). -/
def run_asserts (o : RunnerOracle) (asserts : List Assert) (hostname : String) : Statuses :=
  asserts.foldl (fun st a => putStatus st a.getName (o.assertStatus hostname a)) emptyStatuses

/-- Functional update of an actions-data map. -/
def putActionData (d : ActionsData) (n : String) (v : ActionData) : ActionsData :=
  fun m => if m = n then some v else d m

/-- Modelled from the spec: `cicada2.engine.actions.run_actions` is not
under src/.  Spec section 4.3: iterate the action list in order, send
each action to `hostname`, record the returned outputs under the action
name, and apply the action inner asserts against the same hostname.
Sleeping and the merge with pre-existing entries are not modelled (the
callers fold results into the existing data). -/
def run_actions (o : RunnerOracle) (actions : List Action) (hostname : String) : ActionsData :=
  actions.foldl
    (fun d a =>
      putActionData d a.getName
        { outputs := o.actionOutputs hostname a
          asserts := run_asserts o a.asserts hostname })
    emptyActionsData

/-! ## Distribution strategies (`cicada2/engine/testing.py`) -/

/-- The fan-out plan of the parallel strategies: the source maps
`run_actions` / `run_asserts` over the hostname list, every hostname
receiving the entire item list. -/
def parallelPlan (hostnames : List String) (items : List α) : List (String × List α) :=
  hostnames.map (fun h => (h, items))

/-- `zip(cycle(hostnames), items)` from the series strategies: pair the
items with the hostnames repeated cyclically.  `orig` is the full
hostname list, `cur` the not-yet-consumed rotation. -/
def cycleZip (orig : List α) : List β → List α → List (α × β)
  | [], _ => []
  | b :: bs, cur =>
    match cur with
    | h :: t => (h, b) :: cycleZip orig bs t
    | [] =>
      match orig with
      | h :: t => (h, b) :: cycleZip orig bs t
      | [] => []

/-- One step of the dict-building loop of the series strategies:
`if hostname not in map: map[h] = [a] else: map[h] += [a]`, on an
insertion-ordered association list. -/
def addPair : List (String × List β) → String → β → List (String × List β)
  | [], h, b => [(h, [b])]
  | (k, l) :: rest, h, b =>
    if k = h then (k, l ++ [b]) :: rest else (k, l) :: addPair rest h b

/-- The `hostname -> [items]` map built by the series strategies. -/
def buildShardMap (pairs : List (String × β)) : List (String × List β) :=
  pairs.foldl (fun m p => addPair m p.1 p.2) []

/-- The fan-out plan of the series strategies. -/
def seriesPlan (hostnames : List String) (items : List β) : List (String × List β) :=
  buildShardMap (cycleZip hostnames items hostnames)

/-- Lookup in the shard map. -/
def lookupShard : List (String × List β) → String → Option (List β)
  | [], _ => none
  | (k, l) :: rest, h => if k = h then some l else lookupShard rest h

/-- `testing.run_actions_parallel`: every hostname runs the entire action
list; the shard results are folded with `combine_action_data`, seeded
with the current actions data of the test. -/
def run_actions_parallel (o : RunnerOracle) (actions : List Action)
    (state : EngineState) (test_name : String) (hostnames : List String) : ActionsData :=
  ((parallelPlan hostnames actions).map (fun p => run_actions o p.2 p.1)).foldl
    combine_action_data (entryAt state test_name).actionsData

/-- `testing.run_actions_series`: round-robin the actions across the
hostnames, then run one shard per hostname; fold as in parallel. -/
def run_actions_series (o : RunnerOracle) (actions : List Action)
    (state : EngineState) (test_name : String) (hostnames : List String) : ActionsData :=
  ((seriesPlan hostnames actions).map (fun p => run_actions o p.2 p.1)).foldl
    combine_action_data (entryAt state test_name).actionsData

/-- `testing.run_asserts_parallel`: every hostname runs the remaining
(unsatisfied) asserts; results folded with `combine_data_by_key`. -/
def run_asserts_parallel (o : RunnerOracle) (asserts : List Assert)
    (state : EngineState) (test_name : String) (hostnames : List String) : Statuses :=
  let remaining := get_remaining_asserts asserts (entryAt state test_name).assertStatuses
  ((parallelPlan hostnames remaining).map (fun p => run_asserts o p.2 p.1)).foldl
    combine_data_by_key (entryAt state test_name).assertStatuses

/-- `testing.run_asserts_series`: round-robin the remaining asserts
across hostnames, one shard per hostname. -/
def run_asserts_series (o : RunnerOracle) (asserts : List Assert)
    (state : EngineState) (test_name : String) (hostnames : List String) : Statuses :=
  let remaining := get_remaining_asserts asserts (entryAt state test_name).assertStatuses
  ((seriesPlan hostnames remaining).map (fun p => run_asserts o p.2 p.1)).foldl
    combine_data_by_key (entryAt state test_name).assertStatuses

/-! ## Name verification (`cicada2/engine/testing.py`) -/

/-- The inner-assert naming pass of `verify_action_names`: Python writes
`asrt["name"] = asrt.get("name") or f"Assert{i}"` for every inner assert
(by enumeration index). -/
def assignInner (asserts : List Assert) : List Assert :=
  asserts.enum.map (fun p =>
    { p.2 with name? := some (match p.2.name? with
        | some n => n
        | none => "Assert" ++ natToStr p.1) })

/-- The loop body of `verify_action_names`: check `type` is present,
assign the action name (user-given or `create_item_name`), assign and
check the inner assert names, and accumulate the action names.  Returns
the updated actions (Python mutates the dicts in place) together with the
accumulated name list. -/
def verifyActionsLoop (cfgName : String) :
    List Action → List String → Except String (List Action × List String)
  | [], names => .ok ([], names)
  | a :: rest, names =>
    match a.type? with
    | none => .error ("Action in test " ++ cfgName ++ " is missing property type")
    | some t =>
      let nm := match a.name? with
        | some n => n
        | none => create_item_name t names
      let inner := assignInner a.asserts
      if (inner.map Assert.getName).Nodup then
        match verifyActionsLoop cfgName rest (names ++ [nm]) with
        | .error e => .error e
        | .ok (rest2, names2) =>
          .ok ({ a with name? := some nm, asserts := inner } :: rest2, names2)
      else
        .error ("Assert names for action " ++ nm ++ " if specified must be unique")

/-- `testing.verify_action_names`: run the loop, then enforce that the
collected action names are unique (Python: `len(set(..)) == len(..)`).
Returns the updated action list (the in-place mutation of the caller
dicts made explicit). -/
def verify_action_names (actions : List Action) (cfg : TestConfig) :
    Except String (List Action) :=
  match verifyActionsLoop cfg.name actions [] with
  | .error e => .error e
  | .ok (acts, names) =>
    if names.Nodup then .ok acts
    else .error "Action names if specified must be unique"

/-- The loop of `verify_assert_names`: check `type`, assign the name
(user-given or `create_item_name`), accumulate. -/
def verifyAssertsLoop (cfgName : String) :
    List Assert → List String → Except String (List Assert × List String)
  | [], names => .ok ([], names)
  | a :: rest, names =>
    match a.type? with
    | none => .error ("Assert in test " ++ cfgName ++ " is missing property type")
    | some t =>
      let nm := match a.name? with
        | some n => n
        | none => create_item_name t names
      match verifyAssertsLoop cfgName rest (names ++ [nm]) with
      | .error e => .error e
      | .ok (rest2, names2) => .ok ({ a with name? := some nm } :: rest2, names2)

/-- `testing.verify_assert_names`. -/
def verify_assert_names (asserts : List Assert) (cfg : TestConfig) :
    Except String (List Assert) :=
  match verifyAssertsLoop cfg.name asserts [] with
  | .error e => .error e
  | .ok (asrts, names) =>
    if names.Nodup then .ok asrts
    else .error "Assert names if specified must be unique"

/-! ## The cycle engine (`testing.run_test`)

Python builds `state = defaultdict(dict, incoming_state)`: the top-level
mapping is copied but the nested per-test dicts are shared by reference,
so every in-place write `state[name][key] = v` is also visible through
`incoming_state[name]` whenever that key existed on entry.  The embedding
makes this aliasing explicit: it threads both the working `state` and the
view `inc` the caller retains of `incoming_state`, and applies each write
to `inc` exactly when the entry was aliased (present on entry).  -/

/-- Apply one in-place write to the test entry, updating the working
state and, when the entry is aliased with the incoming state, the caller
view as well. -/
def updateEntry (state inc : EngineState) (aliased : Bool) (n : String)
    (f : TestEntry → TestEntry) : EngineState × EngineState :=
  let e := f (entryAt state n)
  (setEntry state n e, if aliased then setEntry inc n e else inc)

/-- Result of a successful `run_test`: the returned state, the caller
view of `incoming_state` after the call (mutation effect), the
`test_config` after the in-place name assignment, and the completed cycle
count. -/
structure RunTestOk where
  state : EngineState
  incomingAfter : EngineState
  updatedConfig : TestConfig
  completedCycles : Nat

/-- The action-dispatch step of one cycle of `testing.run_test`: when
the test has actions, validate `actionDistributionStrategy` (default
`parallel`, anything other than `parallel`/`series` raises an
`AssertionError`), pick the strategy function and replace
`state[test]["actions"]`. -/
def runCycleActions (o : RunnerOracle) (cfg : TestConfig) (hostnames : List String)
    (aliased : Bool) (state inc : EngineState) : Except String (EngineState × EngineState) :=
  let aStrat := cfg.actionDistributionStrategy?.getD "parallel"
  if cfg.actions.isEmpty then .ok (state, inc)
  else if aStrat = "parallel" ∨ aStrat = "series" then
    let f := if aStrat = "series" then run_actions_series else run_actions_parallel
    let newData := f o cfg.actions state cfg.name hostnames
    .ok (updateEntry state inc aliased cfg.name (fun e => { e with actions? := some newData }))
  else .error ("actionDistributionStrategy must be parallel or series, got " ++ aStrat)

/-- The assert-dispatch step of one cycle of `testing.run_test`: when the
test has asserts, validate `assertDistributionStrategy` (default
`series`), pick the strategy function and replace
`state[test]["asserts"]`. -/
def runCycleAsserts (o : RunnerOracle) (cfg : TestConfig) (hostnames : List String)
    (aliased : Bool) (state inc : EngineState) : Except String (EngineState × EngineState) :=
  let sStrat := cfg.assertDistributionStrategy?.getD "series"
  if cfg.asserts.isEmpty then .ok (state, inc)
  else if sStrat = "parallel" ∨ sStrat = "series" then
    let f := if sStrat = "parallel" then run_asserts_parallel else run_asserts_series
    let newSt := f o cfg.asserts state cfg.name hostnames
    .ok (updateEntry state inc aliased cfg.name (fun e => { e with asserts? := some newSt }))
  else .error ("assertDistributionStrategy must be parallel or series, got " ++ sStrat)

/-- The `while continue_running(...)` loop of `testing.run_test`,
fuel-indexed (`none` = the fuel was exhausted before the loop stopped;
the sentinel -1 makes genuine divergence possible).  Per iteration: honor
the cooperative timeout flag, dispatch actions then asserts via their
strategies, decrement the cycle budget.  Sleeping between cycles is not
modelled. -/
def runTestLoop (o : RunnerOracle) (cfg : TestConfig) (hostnames : List String)
    (keepGoing : Option (Nat → Bool)) (aliased : Bool) :
    Nat → EngineState → EngineState → Int → Nat →
    Option (Except String (EngineState × EngineState × Nat))
  | 0, _, _, _, _ => none
  | fuel + 1, state, inc, rc, cc =>
    let e := entryAt state cfg.name
    if continue_running cfg.actions cfg.asserts rc e.actionsData e.assertStatuses then
      let stop := match keepGoing with
        | some f => !f cc
        | none => false
      if stop then some (.ok (state, inc, cc))
      else
        match runCycleActions o cfg hostnames aliased state inc with
        | .error m => some (.error m)
        | .ok (state1, inc1) =>
          match runCycleAsserts o cfg hostnames aliased state1 inc1 with
          | .error m => some (.error m)
          | .ok (state2, inc2) =>
            runTestLoop o cfg hostnames keepGoing aliased fuel state2 inc2 (rc - 1) (cc + 1)
    else
      some (.ok (state, inc, cc))

/-- `testing.run_test`: compute the cycle budget, validate hostnames and
names (mutating the config in place, here returned as `updatedConfig`),
run the cycle loop, then write the summary.  Errors raised by the Python
`assert` statements are `Except.error`; the wall clock is not modelled
(`duration = 0`). -/
def run_test (o : RunnerOracle) (fuel : Nat) (cfg : TestConfig)
    (incoming : EngineState) (hostnames : List String)
    (keepGoing : Option (Nat → Bool)) : Option (Except String RunTestOk) :=
  let default_cycles := get_default_cycles cfg.actions cfg.asserts
  let remaining_cycles : Int := cfg.cycles?.getD default_cycles
  let aliased := (incoming cfg.name).isSome
  if hostnames.isEmpty then some (.error "Must have at least one host to run tests")
  else
    match verify_action_names cfg.actions cfg with
    | .error e => some (.error e)
    | .ok actions2 =>
      match verify_assert_names cfg.asserts cfg with
      | .error e => some (.error e)
      | .ok asserts2 =>
        let cfg2 := { cfg with actions := actions2, asserts := asserts2 }
        match runTestLoop o cfg2 hostnames keepGoing aliased fuel incoming incoming remaining_cycles 0 with
        | none => none
        | some (.error e) => some (.error e)
        | some (.ok (st, inc, cc)) =>
          let remaining := get_remaining_asserts asserts2 (entryAt st cfg.name).assertStatuses
          let summary : TestSummary :=
            { description? := cfg.description?
              completed_cycles := cc
              remaining_asserts := remaining.map Assert.getName
              error? := none
              duration := 0
              filename? := cfg.filename? }
          let (st2, inc2) :=
            updateEntry st inc aliased cfg.name (fun e => { e with summary? := some summary })
          some (.ok { state := st2, incomingAfter := inc2, updatedConfig := cfg2, completedCycles := cc })

/-! ## Runner lifecycle (`cicada2/engine/runners.py`) -/

/-- `runners.runner_to_image`: map the known runner names to images,
`None` otherwise (also when no runner name was given). -/
def runner_to_image : Option String → Option String
  | some "rest-runner" => some "cicadatesting/cicada-2-rest-runner"
  | some "sql-runner" => some "cicadatesting/cicada-2-sql-runner"
  | some "kafka-runner" => some "cicadatesting/cicada-2-kafka-runner"
  | some "s3-runner" => some "cicadatesting/cicada-2-s3-runner"
  | some "grpc-runner" => some "cicadatesting/cicada-2-grpc-runner"
  | _ => none

/-- `runners.config_to_runner_env`: prefix every key with `RUNNER_` and
upper-case it. -/
def config_to_runner_env (config : List (String × String)) : List (String × String) :=
  config.map (fun p => ("RUNNER_" ++ p.1.toUpper, p.2))

/-- `runners.container_is_healthy`: retry up to `maxRetries` times (with
exponential backoff, not modelled as time is irrelevant to the result),
returning true on the first successful healthcheck.  `checks k` is the
outcome of the k-th healthcheck RPC. -/
def container_is_healthy (checks : Nat → Bool) (maxRetries : Nat) : Bool :=
  (List.range maxRetries).any checks

/-- Observable Docker side effects of `create_docker_container`. -/
inductive DockerEvent
  | networkCreated
  | containerStarted (id : String)
  | containerStopped (id : String)
deriving DecidableEq, Repr

/-- Outcomes of the Docker API calls made by `create_docker_container`. -/
structure DockerEnv where
  networkExists : Bool
  createNetworkFlag : Bool
  networkApiOk : Bool
  startOk : Bool
  checks : Nat → Bool
  maxRetries : Nat

/-- `runners.create_docker_container`: ensure the network (create it when
missing and allowed, else `ValidationError`; wrap API failures), start
the container, then health-gate it.  The container name (uuid based in
the source) is the parameter `cid`.  On a failed health gate the source
raises without stopping the container: the event list returned here is
exactly the side effects performed. -/
def create_docker_container (env : DockerEnv) (cid : String) :
    List DockerEvent × Except String String :=
  if !env.networkApiOk then
    ([], .error "Unable to configure docker network")
  else if env.networkExists then
    if !env.startOk then ([], .error "Unable to create container")
    else if container_is_healthy env.checks env.maxRetries then
      ([.containerStarted cid], .ok cid)
    else
      ([.containerStarted cid], .error "Unable to successfully contact container")
  else if env.createNetworkFlag then
    if !env.startOk then ([.networkCreated], .error "Unable to create container")
    else if container_is_healthy env.checks env.maxRetries then
      ([.networkCreated, .containerStarted cid], .ok cid)
    else
      ([.networkCreated, .containerStarted cid], .error "Unable to successfully contact container")
  else
    ([], .error "Docker network not configured")

/-! ## The closure orchestrator (`runners.run_test`)

The source receives `create_runner_fn`, `remove_runner_fn` and
`get_runner_hostname_fn` by dependency injection; the embedding keeps the
same shape in a `Backend` record.  `createRunner i` is the outcome of the
i-th provisioning call (runner handles are naturals).  Exceptions are
split into the families the closure catches (`AssertionError`,
`ValueError`, `TypeError`, `RuntimeError`) and everything else, which
propagates out of the closure. -/

inductive PyErr
  | caught (msg : String)
  | uncaught (msg : String)
deriving DecidableEq, Repr

structure Backend where
  createRunner : Nat → Except String Nat
  removeRunner : Nat → Option PyErr
  hostnameOf : Nat → String

/-- Instrumentation of the closure run: the runner handles returned by
provisioning calls and the handles successfully removed. -/
structure ClosureEvents where
  created : List Nat
  removed : List Nat
deriving DecidableEq, Repr

/-- The provisioning loop: `for _ in range(count): runners.append(create_runner_fn(...))`.
Returns the runners created so far and the error that aborted the loop,
if any. -/
def provision (be : Backend) : Nat → Nat → List Nat × Option String
  | 0, _ => ([], none)
  | n + 1, i =>
    match be.createRunner i with
    | .error m => ([], some m)
    | .ok rid =>
      let (rest, err?) := provision be n (i + 1)
      (rid :: rest, err?)

/-- A reap loop `for runner in runners: remove_runner_fn(runner)`:
returns the handles removed before the first failing removal, and that
failure if one occurred (the loop stops there, as the exception
propagates). -/
def reap (be : Backend) : List Nat → List Nat × Option PyErr
  | [] => ([], none)
  | r :: rest =>
    match be.removeRunner r with
    | none =>
      let (l, err?) := reap be rest
      (r :: l, err?)
    | some e => ([], some e)

/-- The error summary built in the inner `except` of the closure: fields
from the rendered config, `error = str(err)`, zero cycles and duration. -/
def errorSummary (c : TestConfig) (msg : String) : TestSummary :=
  { description? := c.description?
    completed_cycles := 0
    remaining_asserts := []
    error? := some msg
    duration := 0
    filename? := c.filename? }

/-- `new_state = {test_config["name"]: {"summary": TestSummary(...)}}`. -/
def errorState (keyCfg fieldCfg : TestConfig) (msg : String) : EngineState :=
  fun n => if n = keyCfg.name then some { summary? := some (errorSummary fieldCfg msg) } else none

/-- The final `return {**state, **new_state}` of the closure. -/
def mergeState (state newState : EngineState) : EngineState :=
  fun n =>
    match newState n with
    | some e => some e
    | none => state n

/-- `runners.run_test`: builds the closure.  `render` models
`parsing.render_section` (template substitution; not under src/,
modelled from the spec as an opaque function parameter) and `body` models
the outcome of `run_test_with_timeout` on the provisioned hostnames.
The closure: render, resolve the image, build the env, provision
`runnerCount` runners, run the body, reap; the inner handler converts
caught execution errors into an error summary after reaping, the outer
handler converts any caught error (including provisioning and teardown
errors) into an error summary; uncaught exception families propagate.
The returned events record the provision and reap calls performed. -/
def Runners.run_test (be : Backend)
    (render : TestConfig → EngineState → TestConfig)
    (body : EngineState → List String → Except PyErr EngineState)
    (cfg : TestConfig) :
    EngineState → Except String (EngineState × ClosureEvents) :=
  fun state =>
    let rcfg := render cfg state
    let image? :=
      match runner_to_image rcfg.runner? with
      | some i => some i
      | none => rcfg.image?
    match image? with
    | none =>
      .ok (mergeState state (errorState cfg cfg "Must specify a valid runner or image"),
           { created := [], removed := [] })
    | some _image =>
      let _env := config_to_runner_env rcfg.config
      let (created, perr?) := provision be (rcfg.runnerCount?.getD 1) 0
      match perr? with
      | some m =>
        .ok (mergeState state (errorState cfg cfg m), { created := created, removed := [] })
      | none =>
        let hostnames := created.map be.hostnameOf
        match body state hostnames with
        | .ok newState =>
          match reap be created with
          | (rl, none) =>
            .ok (mergeState state newState, { created := created, removed := rl })
          | (rl, some (.caught m)) =>
            .ok (mergeState state (errorState cfg cfg m), { created := created, removed := rl })
          | (_, some (.uncaught m)) => .error m
        | .error (.caught m) =>
          match reap be created with
          | (rl1, none) =>
            let ns := errorState cfg rcfg m
            match reap be created with
            | (rl2, none) =>
              .ok (mergeState state ns, { created := created, removed := rl1 ++ rl2 })
            | (rl2, some (.caught m2)) =>
              .ok (mergeState state (errorState cfg cfg m2),
                   { created := created, removed := rl1 ++ rl2 })
            | (_, some (.uncaught m2)) => .error m2
          | (rl1, some (.caught m2)) =>
            .ok (mergeState state (errorState cfg cfg m2), { created := created, removed := rl1 })
          | (_, some (.uncaught m2)) => .error m2
        | .error (.uncaught m) => .error m

/-- The names `verify_action_names` assigns, computed without the
uniqueness checks: user-given name, else `create_item_name` of the action
type against the names of the earlier actions. -/
def assignActionNames : List Action → List String → List String
  | [], _ => []
  | a :: rest, names =>
    let nm := match a.name? with
      | some n => n
      | none => create_item_name (a.type?.getD "") names
    nm :: assignActionNames rest (names ++ [nm])

/-- The names `verify_assert_names` assigns, computed without the
uniqueness checks. -/
def assignAssertNames : List Assert → List String → List String
  | [], _ => []
  | a :: rest, names =>
    let nm := match a.name? with
      | some n => n
      | none => create_item_name (a.type?.getD "") names
    nm :: assignAssertNames rest (names ++ [nm])


/-- Projection of the caller-visible incoming state out of a `run_test`
result (used to state concrete instances). -/
def runTestIncomingAfter (res : Option (Except String RunTestOk)) : EngineState :=
  match res with
  | some (.ok r) => r.incomingAfter
  | _ => fun _ => none

/-- Projection of the updated (mutated in place) test config out of a
`run_test` result. -/
def runTestUpdatedConfig (res : Option (Except String RunTestOk)) : Option TestConfig :=
  match res with
  | some (.ok r) => some r.updatedConfig
  | _ => none

/-- A runner oracle whose every action yields no outputs and whose every
assert fails: used for concrete instantiations. -/
def trivialOracle : RunnerOracle :=
  { actionOutputs := fun _ _ => fun _ => none
    assertStatus := fun _ _ =>
      { passed := false, actual := none, expected := none, description := none } }




/-- Round-robin pairing, the closed form of `cycleZip`: item number `i`
(counting from `j`) is paired with hostname `(j + i) mod m`. -/
def rrSpec (hs : List String) : Nat → List β → List (String × β)
  | _, [] => []
  | j, b :: bs => (hs.getD (j % hs.length) "", b) :: rrSpec hs (j + 1) bs


/-- Identity rendering: a template with nothing to substitute. -/
def idRender : TestConfig → EngineState → TestConfig := fun c _ => c

/-- A body (run_test_with_timeout outcome) that returns the incoming
state unchanged. -/
def okBody : EngineState → List String → Except PyErr EngineState := fun st _ => .ok st

/-- A backend whose provisioning always succeeds (runner handle = call
index) and whose removals always succeed. -/
def okBackend : Backend :=
  { createRunner := fun i => .ok i
    removeRunner := fun _ => none
    hostnameOf := fun r => "r" ++ natToStr r }

/-- A backend whose first provisioning call returns runner 7 and whose
second raises: models create_docker_container failing on the second
runner of a two-runner test. -/
def cexBackendCreateFail : Backend :=
  { createRunner := fun i => if i = 0 then .ok 7 else .error "create failed"
    removeRunner := fun _ => none
    hostnameOf := fun r => "r" ++ natToStr r }

/-- A backend that provisions runner 1 and whose removal raises a
RuntimeError-family error, as stop_kube_pod does on an ApiException. -/
def cexBackendRemoveFail : Backend :=
  { createRunner := fun _ => .ok 1
    removeRunner := fun _ => some (.caught "boom")
    hostnameOf := fun r => "r" ++ natToStr r }

/-- A Docker environment where the network exists, the container starts,
and every healthcheck fails. -/
def cexDockerEnvUnhealthy : DockerEnv :=
  { networkExists := true
    createNetworkFlag := false
    networkApiOk := true
    startOk := true
    checks := fun _ => false
    maxRetries := 3 }

/-- The state a successful test body leaves behind: test `t` ran one
cycle and its summary carries no error. -/
def goodBodyState : EngineState := fun n =>
  if n = "t" then some { summary? := some { description? := none, completed_cycles := 1, remaining_asserts := [], error? := none, duration := 0, filename? := none } } else none

/-- A body that succeeds with `goodBodyState`. -/
def goodBody : EngineState → List String → Except PyErr EngineState :=
  fun _ _ => .ok goodBodyState

/-- Closure test config resolving to an image, two runners. -/
def cexClosureCfg : TestConfig := { name := "t", image? := some "img", runnerCount? := some 2 }

/-- Closure test config resolving to an image, one runner. -/
def cexClosureCfg1 : TestConfig := { name := "t", image? := some "img" }

/-- The summary `run_test` emits on normal completion. -/
def mkRunSummary (cfg : TestConfig) (cc : Nat) (rem : List String) : TestSummary :=
  { description? := cfg.description?
    completed_cycles := cc
    remaining_asserts := rem
    error? := none
    duration := 0
    filename? := cfg.filename? }

/-- A runner oracle whose every assert passes: used for concrete
instantiations that must terminate the unlimited-cycles loop. -/
def passOracle : RunnerOracle :=
  { actionOutputs := fun _ _ => fun _ => none
    assertStatus := fun _ _ =>
      { passed := true, actual := none, expected := none, description := none } }

/-! ## Theorems -/

/-- Boolean emptiness in terms of list equality. -/
theorem isEmpty_false_iff (l : List α) : l.isEmpty = false ↔ l ≠ [] := by
  cases l <;> simp

theorem actions_have_asserts_true_iff (l : List Action) :
    actions_have_asserts l = true ↔ ∃ a ∈ l, a.asserts ≠ [] := by
  simp [actions_have_asserts, action_has_asserts, List.any_eq_true,
    Bool.not_eq_true', isEmpty_false_iff]

theorem actions_have_asserts_false_iff (l : List Action) :
    actions_have_asserts l = false ↔ ∀ a ∈ l, a.asserts = [] := by
  simp [actions_have_asserts, action_has_asserts, List.any_eq_false,
    Bool.not_eq_false, List.isEmpty_iff]

theorem remaining_eq_nil_iff (l : List Assert) (st : Statuses) :
    get_remaining_asserts l st = [] ↔ ∀ a ∈ l, assertSatisfied st a.getName = true := by
  simp [get_remaining_asserts, List.filter_eq_nil_iff]

/-- C4: for every RPC error raised by the transport stub, `send_action`
returns the empty mapping, `send_assert` returns a failing status with
null actual/expected and the error details as description, and
`runner_healthcheck` returns false.  The three operations are total
functions of the transport outcome, so no transport exception reaches
their callers. -/
theorem c4_transport_errors_mapped_to_sentinels :
    (∀ (parse : String → List (String × String)) (e : RpcError),
        send_action parse (.error e) = []) ∧
    (∀ e : RpcError,
        send_assert (.error e) =
          { passed := false, actual := none, expected := none,
            description := some e.details }) ∧
    (∀ e : RpcError, runner_healthcheck (.error e) = false) :=
  ⟨fun _ _ => rfl, fun _ => rfl, fun _ => rfl⟩

/-- C5: `continue_running` returns true iff either (a) there are no
asserts and no inner asserts and the cycle budget is nonzero, or (b)
there is at least one top-level or inner assert, the budget is nonzero,
and some top-level assert or some inner assert of some action is still
unsatisfied. -/
theorem c5_continue_running_characterisation
    (actions : List Action) (asserts : List Assert) (rc : Int)
    (ad : ActionsData) (st : Statuses) :
    continue_running actions asserts rc ad st = true ↔
    ((asserts = [] ∧ (∀ a ∈ actions, a.asserts = []) ∧ rc ≠ 0) ∨
     ((asserts ≠ [] ∨ ∃ a ∈ actions, a.asserts ≠ []) ∧ rc ≠ 0 ∧
       ((∃ a ∈ asserts, assertSatisfied st a.getName = false) ∨
        (∃ a ∈ actions, ∃ s ∈ a.asserts,
          assertSatisfied (innerStatuses ad a) s.getName = false)))) := by
  simp only [continue_running, Bool.or_eq_true, Bool.and_eq_true,
    Bool.not_eq_true', bne_iff_ne, ne_eq, List.isEmpty_iff,
    isEmpty_false_iff, actions_have_asserts_true_iff,
    actions_have_asserts_false_iff, List.any_eq_true,
    remaining_eq_nil_iff, not_forall, Classical.not_imp,
    Bool.not_eq_true, exists_prop]
  aesop

theorem updateEntry_snd_ne (state inc : EngineState) (aliased : Bool) (n : String)
    (f : TestEntry → TestEntry) (m : String) (hm : m ≠ n) :
    (updateEntry state inc aliased n f).2 m = inc m := by
  unfold updateEntry setEntry
  cases aliased <;> simp [hm]

theorem updateEntry_snd_false (state inc : EngineState) (n : String)
    (f : TestEntry → TestEntry) :
    (updateEntry state inc false n f).2 = inc := rfl

theorem runCycleActions_inc (o : RunnerOracle) (cfg : TestConfig)
    (hostnames : List String) (aliased : Bool) (state inc st1 inc1 : EngineState)
    (h : runCycleActions o cfg hostnames aliased state inc = .ok (st1, inc1)) :
    (∀ m, m ≠ cfg.name → inc1 m = inc m) ∧ (aliased = false → inc1 = inc) := by
  unfold runCycleActions at h
  by_cases he : cfg.actions.isEmpty
  · rw [if_pos he] at h
    cases h
    exact ⟨fun m _ => rfl, fun _ => rfl⟩
  · rw [if_neg he] at h
    by_cases hs : cfg.actionDistributionStrategy?.getD "parallel" = "parallel" ∨
        cfg.actionDistributionStrategy?.getD "parallel" = "series"
    · rw [if_pos hs] at h
      have h2 := congrArg Prod.snd (Except.ok.inj h)
      simp only at h2
      constructor
      · intro m hm
        rw [← h2]
        exact updateEntry_snd_ne _ _ _ _ _ m hm
      · intro hal
        subst hal
        rw [← h2, updateEntry_snd_false]
    · rw [if_neg hs] at h
      cases h

theorem runCycleAsserts_inc (o : RunnerOracle) (cfg : TestConfig)
    (hostnames : List String) (aliased : Bool) (state inc st1 inc1 : EngineState)
    (h : runCycleAsserts o cfg hostnames aliased state inc = .ok (st1, inc1)) :
    (∀ m, m ≠ cfg.name → inc1 m = inc m) ∧ (aliased = false → inc1 = inc) := by
  unfold runCycleAsserts at h
  by_cases he : cfg.asserts.isEmpty
  · rw [if_pos he] at h
    cases h
    exact ⟨fun m _ => rfl, fun _ => rfl⟩
  · rw [if_neg he] at h
    by_cases hs : cfg.assertDistributionStrategy?.getD "series" = "parallel" ∨
        cfg.assertDistributionStrategy?.getD "series" = "series"
    · rw [if_pos hs] at h
      have h2 := congrArg Prod.snd (Except.ok.inj h)
      simp only at h2
      constructor
      · intro m hm
        rw [← h2]
        exact updateEntry_snd_ne _ _ _ _ _ m hm
      · intro hal
        subst hal
        rw [← h2, updateEntry_snd_false]
    · rw [if_neg hs] at h
      cases h

theorem runTestLoop_inc (o : RunnerOracle) (cfg : TestConfig) (hostnames : List String)
    (keepGoing : Option (Nat → Bool)) (aliased : Bool) :
    ∀ (fuel : Nat) (state inc : EngineState) (rc : Int) (cc : Nat)
      (st2 inc2 : EngineState) (cc2 : Nat),
    runTestLoop o cfg hostnames keepGoing aliased fuel state inc rc cc =
      some (.ok (st2, inc2, cc2)) →
    (∀ m, m ≠ cfg.name → inc2 m = inc m) ∧ (aliased = false → inc2 = inc) := by
  intro fuel
  induction fuel with
  | zero => intro state inc rc cc st2 inc2 cc2 h; cases h
  | succ f ih =>
    intro state inc rc cc st2 inc2 cc2 h
    rw [runTestLoop.eq_def] at h
    dsimp only at h
    by_cases hg : continue_running cfg.actions cfg.asserts rc
        (entryAt state cfg.name).actionsData (entryAt state cfg.name).assertStatuses
    · rw [if_pos hg] at h
      set stopv := (match keepGoing with | some g => !g cc | none => false) with hstopv
      by_cases hstop : stopv = true
      · rw [if_pos hstop] at h
        have h2 := Option.some.inj h
        have h3 := Except.ok.inj h2
        have h4 : inc = inc2 := congrArg (fun p => p.2.1) h3
        exact ⟨fun m _ => (congrArg (fun g => g m) h4).symm, fun _ => h4.symm⟩
      · rw [if_neg hstop] at h
        cases hca : runCycleActions o cfg hostnames aliased state inc with
        | error m => rw [hca] at h; cases h
        | ok p1 =>
          obtain ⟨state1, inc1⟩ := p1
          rw [hca] at h
          dsimp only at h
          cases hcs : runCycleAsserts o cfg hostnames aliased state1 inc1 with
          | error m => rw [hcs] at h; cases h
          | ok p2 =>
            obtain ⟨stateB, incB⟩ := p2
            rw [hcs] at h
            dsimp only at h
            obtain ⟨ha1, ha2⟩ := runCycleActions_inc o cfg hostnames aliased state inc state1 inc1 hca
            obtain ⟨hb1, hb2⟩ := runCycleAsserts_inc o cfg hostnames aliased state1 inc1 stateB incB hcs
            obtain ⟨hc1, hc2⟩ := ih stateB incB (rc - 1) (cc + 1) st2 inc2 cc2 h
            constructor
            · intro m hm
              rw [hc1 m hm, hb1 m hm, ha1 m hm]
            · intro hal
              rw [hc2 hal, hb2 hal, ha2 hal]
    · rw [if_neg hg] at h
      have h2 := Option.some.inj h
      have h3 := Except.ok.inj h2
      have h4 : inc = inc2 := congrArg (fun p => p.2.1) h3
      exact ⟨fun m _ => (congrArg (fun g => g m) h4).symm, fun _ => h4.symm⟩

theorem run_test_ok_inv (o : RunnerOracle) (fuel : Nat) (cfg : TestConfig)
    (incoming : EngineState) (hostnames : List String)
    (keepGoing : Option (Nat → Bool)) (r : RunTestOk)
    (h : run_test o fuel cfg incoming hostnames keepGoing = some (.ok r)) :
    ∃ (acts2 : List Action) (asrts2 : List Assert) (st inc : EngineState) (cc : Nat)
      (f : TestEntry → TestEntry),
      verify_action_names cfg.actions cfg = .ok acts2 ∧
      verify_assert_names cfg.asserts cfg = .ok asrts2 ∧
      runTestLoop o { cfg with actions := acts2, asserts := asrts2 } hostnames keepGoing
        ((incoming cfg.name).isSome) fuel incoming incoming
        (cfg.cycles?.getD (get_default_cycles cfg.actions cfg.asserts)) 0 =
        some (.ok (st, inc, cc)) ∧
      r.updatedConfig = { cfg with actions := acts2, asserts := asrts2 } ∧
      r.incomingAfter =
        (updateEntry st inc ((incoming cfg.name).isSome) cfg.name f).2 ∧
      r.completedCycles = cc := by
  unfold run_test at h
  by_cases he : hostnames.isEmpty
  · rw [if_pos he] at h
    exact absurd h (by simp)
  · rw [if_neg he] at h
    cases hva : verify_action_names cfg.actions cfg with
    | error e => rw [hva] at h; exact absurd h (by simp)
    | ok acts2 =>
      rw [hva] at h
      dsimp only at h
      cases hvs : verify_assert_names cfg.asserts cfg with
      | error e => rw [hvs] at h; exact absurd h (by simp)
      | ok asrts2 =>
        rw [hvs] at h
        dsimp only at h
        cases hloop : runTestLoop o { cfg with actions := acts2, asserts := asrts2 }
            hostnames keepGoing ((incoming cfg.name).isSome) fuel incoming incoming
            (cfg.cycles?.getD (get_default_cycles cfg.actions cfg.asserts)) 0 with
        | none => rw [hloop] at h; exact absurd h (by simp)
        | some res =>
          cases res with
          | error e => rw [hloop] at h; exact absurd h (by simp)
          | ok triple =>
            obtain ⟨st, inc, cc⟩ := triple
            rw [hloop] at h
            dsimp only at h
            have hr := (Option.some.inj h)
            have hr2 := Except.ok.inj hr
            refine ⟨acts2, asrts2, st, inc, cc,
              fun e => { e with summary? := some { description? := cfg.description?, completed_cycles := cc, remaining_asserts := (get_remaining_asserts asrts2 (entryAt st cfg.name).assertStatuses).map Assert.getName, error? := none, duration := 0, filename? := cfg.filename? } },
              rfl, rfl, hloop, ?_, ?_, ?_⟩
            · rw [← hr2]
            · rw [← hr2]
            · rw [← hr2]

/-- C2 (amended): `run_test` leaves the top-level incoming mapping and
the entries of all other test names untouched, and when the incoming
state holds no entry for the test name it is not mutated at all; the
nested entry under the test name, when present on entry, is however
mutated in place (see the counterexample). -/
theorem c2_run_test_incoming_frame (o : RunnerOracle) (fuel : Nat) (cfg : TestConfig)
    (incoming : EngineState) (hostnames : List String)
    (keepGoing : Option (Nat → Bool)) (r : RunTestOk)
    (h : run_test o fuel cfg incoming hostnames keepGoing = some (.ok r)) :
    (∀ n, n ≠ cfg.name → r.incomingAfter n = incoming n) ∧
    (incoming cfg.name = none → ∀ n, r.incomingAfter n = incoming n) := by
  obtain ⟨acts2, asrts2, st, inc, cc, f, hva, hvs, hloop, hupd, hinca, hcc⟩ :=
    run_test_ok_inv o fuel cfg incoming hostnames keepGoing r h
  have hl := runTestLoop_inc o { cfg with actions := acts2, asserts := asrts2 }
    hostnames keepGoing ((incoming cfg.name).isSome) fuel incoming incoming
    (cfg.cycles?.getD (get_default_cycles cfg.actions cfg.asserts)) 0 st inc cc hloop
  constructor
  · intro n hn
    rw [hinca, updateEntry_snd_ne _ _ _ _ _ n hn]
    exact hl.1 n hn
  · intro hnone
    have hal : (incoming cfg.name).isSome = false := by rw [hnone]; rfl
    intro n
    rw [hinca, hal, updateEntry_snd_false]
    rw [hl.2 hal]

/-- C2 counterexample: with an incoming state that already holds an
(empty) entry for test `t`, running the dry test `t` writes the summary
into that shared entry: after the call the caller sees a summary under
`incoming_state["t"]` where there was none before.  The claim that
incoming_state, including every nested per-test entry, is unchanged is
therefore false. -/
theorem c2_counterexample :
    ((run_test trivialOracle 1 { name := "t" }
        (fun n => if n = "t" then some {} else none) ["h"] none).map
      (Except.map (fun r => (r.incomingAfter "t").map (fun e => e.summary?.isSome)))) =
      some (.ok (some true)) ∧
    ((fun n => if n = "t" then some ({} : TestEntry) else none) "t").map
      (fun e => e.summary?.isSome) = some false :=
  ⟨rfl, rfl⟩

theorem c2_witness :
    runTestIncomingAfter
      (run_test trivialOracle 1 { name := "t" } (fun _ => none) ["h"] none) "u" = none :=
  (c2_run_test_incoming_frame trivialOracle 1 { name := "t" } (fun _ => none)
    ["h"] none _ rfl).1 "u" (by decide)

/-! ### Freshness of auto-assigned names -/

theorem strMk_inj (l1 l2 : List Char) : String.mk l1 = String.mk l2 → l1 = l2 := by
  intro h; injection h

theorem digitChar_injOn : ∀ a < 10, ∀ b < 10, Nat.digitChar a = Nat.digitChar b → a = b := by
  decide

theorem map_digitChar_inj : ∀ l1 l2 : List Nat, (∀ d ∈ l1, d < 10) → (∀ d ∈ l2, d < 10) →
    l1.map Nat.digitChar = l2.map Nat.digitChar → l1 = l2 := by
  intro l1
  induction l1 with
  | nil => intro l2 _ _ h; cases l2 <;> simp_all
  | cons d t ih =>
    intro l2 h1 h2 h
    cases l2 with
    | nil => simp_all
    | cons d2 t2 =>
      simp only [List.map_cons, List.cons.injEq] at h
      have hd : d = d2 :=
        digitChar_injOn d (h1 d (by simp)) d2 (h2 d2 (by simp)) h.1
      have ht : t = t2 := ih t2 (fun x hx => h1 x (by simp [hx])) (fun x hx => h2 x (by simp [hx])) h.2
      simp [hd, ht]

theorem digitsFuel_eq (fuel : Nat) : ∀ n, n ≤ fuel → digitsFuel fuel n = Nat.digits 10 n := by
  induction fuel with
  | zero =>
    intro n hn
    have : n = 0 := by omega
    subst this
    simp [digitsFuel]
  | succ f ih =>
    intro n hn
    match n with
    | 0 => simp [digitsFuel]
    | m + 1 =>
      rw [digitsFuel]
      rw [Nat.digits_def' (by norm_num : (1 : Nat) < 10) (Nat.succ_pos m)]
      congr 1
      apply ih
      have := Nat.div_lt_self (Nat.succ_pos m) (by norm_num : (1 : Nat) < 10)
      omega

theorem natDigits_eq (n : Nat) : natDigits n = Nat.digits 10 n :=
  digitsFuel_eq n n le_rfl

theorem natToStr_zero : natToStr 0 = "0" := rfl

theorem natToStr_of_ne_zero (n : Nat) (h : n ≠ 0) :
    natToStr n = String.mk (((Nat.digits 10 n).reverse).map Nat.digitChar) := by
  unfold natToStr
  rw [if_neg h, natDigits_eq]

theorem digits_bound (n : Nat) : ∀ d ∈ (Nat.digits 10 n).reverse, d < 10 := fun d hdm =>
  Nat.digits_lt_base (by norm_num) (List.mem_reverse.mp hdm)

theorem natToStr_ne_empty (n : Nat) : natToStr n ≠ "" := by
  by_cases hn : n = 0
  · subst hn; decide
  · rw [natToStr_of_ne_zero n hn]
    intro h
    have hd := strMk_inj _ _ h
    have hne : Nat.digits 10 n ≠ [] := Nat.digits_ne_nil_iff_ne_zero.mpr hn
    simp at hd
    exact hne hd

theorem natToStr_eq_zero_str (n : Nat) (h : natToStr n = "0") : n = 0 := by
  by_contra hn
  rw [natToStr_of_ne_zero n hn] at h
  have hd := strMk_inj _ _ h
  have h2 : ((Nat.digits 10 n).reverse).map Nat.digitChar = [(0 : Nat)].map Nat.digitChar := by
    simpa using hd
  have h3 := map_digitChar_inj _ _ (digits_bound n) (by simp) h2
  have h4 : Nat.digits 10 n = [0] := by
    have := congrArg List.reverse h3
    simpa using this
  have h5 := Nat.ofDigits_digits 10 n
  rw [h4] at h5
  simp [Nat.ofDigits] at h5
  exact hn h5.symm

theorem natToStr_inj : Function.Injective natToStr := by
  intro m n h
  by_cases hm : m = 0 <;> by_cases hn : n = 0
  · omega
  · subst hm
    rw [natToStr_zero] at h
    exact (natToStr_eq_zero_str n h.symm).symm
  · subst hn
    rw [natToStr_zero] at h
    exact natToStr_eq_zero_str m h
  · rw [natToStr_of_ne_zero m hm, natToStr_of_ne_zero n hn] at h
    have hd := strMk_inj _ _ h
    have h2 := map_digitChar_inj _ _ (digits_bound m) (digits_bound n) hd
    have h3 : Nat.digits 10 m = Nat.digits 10 n := by
      have := congrArg List.reverse h2
      simpa using this
    have hm2 := Nat.ofDigits_digits 10 m
    rw [h3, Nat.ofDigits_digits 10 n] at hm2
    exact hm2.symm

theorem str_append_cancel (t a b : String) (h : t ++ a = t ++ b) : a = b := by
  have hd : t.data ++ a.data = t.data ++ b.data := congrArg String.data h
  have := List.append_cancel_left hd
  cases a; cases b; simp_all

theorem str_append_right_ne (t s : String) (h : s ≠ "") : t ≠ t ++ s := by
  intro he
  have hd : t.data ++ [] = t.data ++ s.data := by
    simpa using congrArg String.data he
  have hnil : ([] : List Char) = s.data := List.append_cancel_left hd
  apply h
  cases s
  cases hnil
  rfl

theorem suffixName_injective (t : String) : Function.Injective (suffixName t) := by
  intro i j h
  unfold suffixName at h
  by_cases hi : i = 0 <;> by_cases hj : j = 0
  · omega
  · rw [if_pos hi, if_neg hj] at h
    exact absurd h (str_append_right_ne t _ (natToStr_ne_empty j))
  · rw [if_neg hi, if_pos hj] at h
    exact absurd h.symm (str_append_right_ne t _ (natToStr_ne_empty i))
  · rw [if_neg hi, if_neg hj] at h
    exact natToStr_inj (str_append_cancel t _ _ h)

theorem create_item_name_fresh (t : String) (names : List String) :
    create_item_name t names ∉ names := by
  unfold create_item_name
  cases hf : (((List.range (names.length + 1)).map (suffixName t)).find? (fun c => !names.contains c)) with
  | some c =>
    have hp := List.find?_some hf
    simpa using hp
  | none =>
    exfalso
    have hall : ∀ c ∈ (List.range (names.length + 1)).map (suffixName t), c ∈ names := by
      intro c hc
      have := List.find?_eq_none.mp hf c hc
      simpa using this
    set cands := (List.range (names.length + 1)).map (suffixName t) with hcands
    have hnd : cands.Nodup :=
      (List.nodup_range (names.length + 1)).map (suffixName_injective t)
    have hsub : cands.toFinset ⊆ names.toFinset := by
      intro x hx
      rw [List.mem_toFinset] at hx ⊢
      exact hall x hx
    have hc1 : cands.toFinset.card = names.length + 1 := by
      rw [List.toFinset_card_of_nodup hnd, hcands]
      simp
    have hc2 : names.toFinset.card ≤ names.length := names.toFinset_card_le
    have := Finset.card_le_card hsub
    omega

/-! ### Name verification lemmas and claim C9 -/

theorem verifyActionsLoop_ok (c : String) :
    ∀ (acts : List Action) (names : List String) (p : List Action × List String),
    verifyActionsLoop c acts names = .ok p →
    p.2 = names ++ p.1.map Action.getName ∧
    List.Forall₂ (fun a b => b.asserts = assignInner a.asserts) acts p.1 ∧
    ∀ b ∈ p.1, b.name?.isSome ∧ (b.asserts.map Assert.getName).Nodup ∧
      ∀ s ∈ b.asserts, s.name?.isSome := by
  intro acts
  induction acts with
  | nil =>
    intro names p h
    simp only [verifyActionsLoop] at h
    cases h
    simp
  | cons a rest ih =>
    intro names p h
    simp only [verifyActionsLoop] at h
    cases hty : a.type? with
    | none => rw [hty] at h; cases h
    | some t =>
      rw [hty] at h
      dsimp only at h
      by_cases hnd : ((assignInner a.asserts).map Assert.getName).Nodup
      · rw [if_pos hnd] at h
        cases hrec : verifyActionsLoop c rest (names ++
            [match a.name? with | some n => n | none => create_item_name t names]) with
        | error e => rw [hrec] at h; cases h
        | ok q =>
          rw [hrec] at h
          cases h
          obtain ⟨h1, h2, h3⟩ := ih _ q hrec
          refine ⟨?_, ?_, ?_⟩
          · simp only [List.map_cons, h1]
            simp [Action.getName, List.append_assoc]
          · exact List.Forall₂.cons rfl h2
          · intro b hb
            rcases List.mem_cons.mp hb with hb1 | hb2
            · subst hb1
              refine ⟨by simp, by simpa using hnd, ?_⟩
              intro s hs
              simp only [assignInner, List.mem_map] at hs
              obtain ⟨q2, _, hq2⟩ := hs
              rw [← hq2]
              simp
            · exact h3 b hb2
      · rw [if_neg hnd] at h
        cases h

theorem verifyActionsLoop_succeeds (c : String) :
    ∀ (acts : List Action) (names : List String),
    (∀ a ∈ acts, a.type?.isSome) →
    (∀ a ∈ acts, ((assignInner a.asserts).map Assert.getName).Nodup) →
    ∃ p, verifyActionsLoop c acts names = .ok p ∧
      p.2 = names ++ assignActionNames acts names := by
  intro acts
  induction acts with
  | nil => intro names _ _; exact ⟨([], names), rfl, by simp [assignActionNames]⟩
  | cons a rest ih =>
    intro names hty hnd
    obtain ⟨t, ht⟩ := Option.isSome_iff_exists.mp (hty a (by simp))
    obtain ⟨q, hq, hq2⟩ := ih (names ++
        [match a.name? with | some n => n | none => create_item_name t names])
      (fun x hx => hty x (by simp [hx])) (fun x hx => hnd x (by simp [hx]))
    refine ⟨({ a with name? := some (match a.name? with | some n => n | none => create_item_name t names), asserts := assignInner a.asserts } :: q.1, q.2), ?_, ?_⟩
    · simp only [verifyActionsLoop, ht]
      rw [if_pos (by simpa using hnd a (by simp))]
      rw [hq]
    · rw [hq2]
      simp only [assignActionNames]
      have harg : (match a.name? with | some n => n | none => create_item_name (a.type?.getD "") names)
          = (match a.name? with | some n => n | none => create_item_name t names) := by
        cases a.name? <;> simp [ht]
      rw [← harg]
      simp [List.append_assoc]

theorem verifyAssertsLoop_ok (c : String) :
    ∀ (asrts : List Assert) (names : List String) (p : List Assert × List String),
    verifyAssertsLoop c asrts names = .ok p →
    p.2 = names ++ p.1.map Assert.getName ∧ ∀ b ∈ p.1, b.name?.isSome := by
  intro asrts
  induction asrts with
  | nil =>
    intro names p h
    simp only [verifyAssertsLoop] at h
    cases h
    simp
  | cons a rest ih =>
    intro names p h
    simp only [verifyAssertsLoop] at h
    cases hty : a.type? with
    | none => rw [hty] at h; cases h
    | some t =>
      rw [hty] at h
      dsimp only at h
      cases hrec : verifyAssertsLoop c rest (names ++
          [match a.name? with | some n => n | none => create_item_name t names]) with
      | error e => rw [hrec] at h; cases h
      | ok q =>
        rw [hrec] at h
        cases h
        obtain ⟨h1, h2⟩ := ih _ q hrec
        refine ⟨?_, ?_⟩
        · simp only [List.map_cons, h1]
          simp [Assert.getName, List.append_assoc]
        · intro b hb
          rcases List.mem_cons.mp hb with hb1 | hb2
          · subst hb1; simp
          · exact h2 b hb2

theorem verifyAssertsLoop_succeeds (c : String) :
    ∀ (asrts : List Assert) (names : List String),
    (∀ a ∈ asrts, a.type?.isSome) →
    ∃ p, verifyAssertsLoop c asrts names = .ok p ∧
      p.2 = names ++ assignAssertNames asrts names := by
  intro asrts
  induction asrts with
  | nil => intro names _; exact ⟨([], names), rfl, by simp [assignAssertNames]⟩
  | cons a rest ih =>
    intro names hty
    obtain ⟨t, ht⟩ := Option.isSome_iff_exists.mp (hty a (by simp))
    obtain ⟨q, hq, hq2⟩ := ih (names ++
        [match a.name? with | some n => n | none => create_item_name t names])
      (fun x hx => hty x (by simp [hx]))
    refine ⟨({ a with name? := some (match a.name? with | some n => n | none => create_item_name t names) } :: q.1, q.2), ?_, ?_⟩
    · simp only [verifyAssertsLoop, ht]
      rw [hq]
    · rw [hq2]
      simp only [assignAssertNames]
      have harg : (match a.name? with | some n => n | none => create_item_name (a.type?.getD "") names)
          = (match a.name? with | some n => n | none => create_item_name t names) := by
        cases a.name? <;> simp [ht]
      rw [← harg]
      simp [List.append_assoc]

/-- C9 (amended): an auto-assigned name is always fresh with respect to
the names assigned so far; when every item has a type and the names
after auto-assignment are pairwise distinct in their scope, both
verification passes succeed; and whenever they succeed, action names,
top-level assert names and per-action inner assert names are unique in
their scopes.  Uniqueness of the user-specified names alone does not
suffice (see the counterexample): a later user-specified name can
collide with an earlier auto-assigned one. -/
theorem c9_amended (cfg : TestConfig) (actions : List Action) (asserts : List Assert) :
    (∀ (t : String) (names : List String), create_item_name t names ∉ names) ∧
    ((∀ a ∈ actions, a.type?.isSome) →
     (∀ a ∈ actions, ((assignInner a.asserts).map Assert.getName).Nodup) →
     (assignActionNames actions []).Nodup →
     ∃ acts2, verify_action_names actions cfg = .ok acts2) ∧
    ((∀ s ∈ asserts, s.type?.isSome) →
     (assignAssertNames asserts []).Nodup →
     ∃ asrts2, verify_assert_names asserts cfg = .ok asrts2) ∧
    (∀ acts2, verify_action_names actions cfg = .ok acts2 →
       (acts2.map Action.getName).Nodup ∧
       ∀ a ∈ acts2, (a.asserts.map Assert.getName).Nodup) ∧
    (∀ asrts2, verify_assert_names asserts cfg = .ok asrts2 →
       (asrts2.map Assert.getName).Nodup) := by
  refine ⟨create_item_name_fresh, ?_, ?_, ?_, ?_⟩
  · intro hty hnd hassign
    obtain ⟨p, hp, hp2⟩ := verifyActionsLoop_succeeds cfg.name actions [] hty hnd
    obtain ⟨acts2, names2⟩ := p
    refine ⟨acts2, ?_⟩
    simp only [verify_action_names, hp]
    simp only at hp2
    rw [if_pos (by rw [hp2]; simpa using hassign)]
  · intro hty hassign
    obtain ⟨p, hp, hp2⟩ := verifyAssertsLoop_succeeds cfg.name asserts [] hty
    obtain ⟨asrts2, names2⟩ := p
    refine ⟨asrts2, ?_⟩
    simp only [verify_assert_names, hp]
    simp only at hp2
    rw [if_pos (by rw [hp2]; simpa using hassign)]
  · intro acts2 h
    simp only [verify_action_names] at h
    cases hl : verifyActionsLoop cfg.name actions [] with
    | error e => rw [hl] at h; cases h
    | ok q =>
      obtain ⟨qa, qn⟩ := q
      rw [hl] at h
      dsimp only at h
      by_cases hq : qn.Nodup
      · rw [if_pos hq] at h
        cases h
        obtain ⟨h1, _, h3⟩ := verifyActionsLoop_ok cfg.name actions [] _ hl
        simp only at h1
        subst h1
        refine ⟨by simpa using hq, ?_⟩
        intro a ha
        exact (h3 a ha).2.1
      · rw [if_neg hq] at h
        cases h
  · intro asrts2 h
    simp only [verify_assert_names] at h
    cases hl : verifyAssertsLoop cfg.name asserts [] with
    | error e => rw [hl] at h; cases h
    | ok q =>
      obtain ⟨qa, qn⟩ := q
      rw [hl] at h
      dsimp only at h
      by_cases hq : qn.Nodup
      · rw [if_pos hq] at h
        cases h
        obtain ⟨h1, _⟩ := verifyAssertsLoop_ok cfg.name asserts [] _ hl
        simp only at h1
        subst h1
        simpa using hq
      · rw [if_neg hq] at h
        cases h

theorem c9_counterexample :
    (["POST"] : List String).Nodup ∧
    (verify_action_names
      [{ type? := some "POST" }, { type? := some "GET", name? := some "POST" }]
      { name := "t" }) = .error "Action names if specified must be unique" :=
  ⟨by decide, by rfl⟩

theorem c9_witness :
    (∃ acts2, verify_action_names
      [{ type? := some "POST" }, { type? := some "POST" }] { name := "t" } = .ok acts2) ∧
    (∃ asrts2, verify_assert_names
      [{ type? := some "equals" }, { type? := some "equals" }] { name := "t" } = .ok asrts2) := by
  constructor
  · exact (c9_amended { name := "t" }
      [{ type? := some "POST" }, { type? := some "POST" }] []).2.1
      (by decide) (by decide) (by decide)
  · exact (c9_amended { name := "t" } []
      [{ type? := some "equals" }, { type? := some "equals" }]).2.2.1
      (by decide) (by decide)

theorem verify_action_names_ok_props (actions : List Action) (cfg : TestConfig)
    (acts2 : List Action) (h : verify_action_names actions cfg = .ok acts2) :
    List.Forall₂ (fun a b => b.asserts = assignInner a.asserts) actions acts2 ∧
    (acts2.map Action.getName).Nodup ∧
    ∀ b ∈ acts2, b.name?.isSome ∧ (b.asserts.map Assert.getName).Nodup ∧
      ∀ s ∈ b.asserts, s.name?.isSome := by
  simp only [verify_action_names] at h
  cases hl : verifyActionsLoop cfg.name actions [] with
  | error e => rw [hl] at h; cases h
  | ok q =>
    obtain ⟨qa, qn⟩ := q
    rw [hl] at h
    dsimp only at h
    by_cases hq : qn.Nodup
    · rw [if_pos hq] at h
      cases h
      obtain ⟨h1, h2, h3⟩ := verifyActionsLoop_ok cfg.name actions [] _ hl
      simp only at h1
      subst h1
      exact ⟨h2, by simpa using hq, h3⟩
    · rw [if_neg hq] at h
      cases h

theorem verify_assert_names_ok_props (asserts : List Assert) (cfg : TestConfig)
    (asrts2 : List Assert) (h : verify_assert_names asserts cfg = .ok asrts2) :
    (asrts2.map Assert.getName).Nodup ∧ ∀ b ∈ asrts2, b.name?.isSome := by
  simp only [verify_assert_names] at h
  cases hl : verifyAssertsLoop cfg.name asserts [] with
  | error e => rw [hl] at h; cases h
  | ok q =>
    obtain ⟨qa, qn⟩ := q
    rw [hl] at h
    dsimp only at h
    by_cases hq : qn.Nodup
    · rw [if_pos hq] at h
      cases h
      obtain ⟨h1, h2⟩ := verifyAssertsLoop_ok cfg.name asserts [] _ hl
      simp only at h1
      subst h1
      exact ⟨by simpa using hq, h2⟩
    · rw [if_neg hq] at h
      cases h

/-- C10: when `run_test` returns, the test config it was handed has been
mutated in place by the pre-loop validation passes: every action carries
a name, every inner assert of every action carries a name, and every
top-level assert carries a name.  The mutation effect is the
`updatedConfig` component of the embedding result. -/
theorem c10_run_test_assigns_names (o : RunnerOracle) (fuel : Nat) (cfg : TestConfig)
    (incoming : EngineState) (hostnames : List String)
    (keepGoing : Option (Nat → Bool)) (r : RunTestOk)
    (h : run_test o fuel cfg incoming hostnames keepGoing = some (.ok r)) :
    (∀ a ∈ r.updatedConfig.actions, a.name?.isSome ∧ ∀ s ∈ a.asserts, s.name?.isSome) ∧
    (∀ s ∈ r.updatedConfig.asserts, s.name?.isSome) := by
  obtain ⟨acts2, asrts2, st, inc, cc, f, hva, hvs, hloop, hupd, hinca, hcc⟩ :=
    run_test_ok_inv o fuel cfg incoming hostnames keepGoing r h
  obtain ⟨_, _, h3⟩ := verify_action_names_ok_props cfg.actions cfg acts2 hva
  obtain ⟨_, h5⟩ := verify_assert_names_ok_props cfg.asserts cfg asrts2 hvs
  rw [hupd]
  constructor
  · intro a ha
    simp only at ha
    exact ⟨(h3 a ha).1, (h3 a ha).2.2⟩
  · intro sa hsa
    simp only at hsa
    exact h5 sa hsa

theorem c10_witness :
    (runTestUpdatedConfig (run_test passOracle 3
        { name := "t",
          actions := [{ type? := some "POST", asserts := [{ type? := some "equals" }] }],
          asserts := [{ type? := some "equals" }] }
        (fun _ => none) ["h"] none)).map
      (fun c => decide ((∀ a ∈ c.actions, a.name?.isSome ∧ ∀ s ∈ a.asserts, s.name?.isSome) ∧
        ∀ s ∈ c.asserts, s.name?.isSome)) = some true :=
  congrArg some (decide_eq_true
    (c10_run_test_assigns_names passOracle 3
      { name := "t",
        actions := [{ type? := some "POST", asserts := [{ type? := some "equals" }] }],
        asserts := [{ type? := some "equals" }] }
      (fun _ => none) ["h"] none _ rfl))



theorem verify_action_names_nil (cfg : TestConfig) :
    verify_action_names [] cfg = .ok [] := rfl

theorem verify_assert_names_nil (cfg : TestConfig) :
    verify_assert_names [] cfg = .ok [] := rfl

theorem continue_running_nil_zero (ad : ActionsData) (st : Statuses) :
    continue_running [] [] 0 ad st = false := rfl

theorem runTestLoop_exit (o : RunnerOracle) (cfg : TestConfig) (hostnames : List String)
    (keepGoing : Option (Nat → Bool)) (aliased : Bool) (fuel : Nat)
    (state inc : EngineState) (rc : Int) (cc : Nat)
    (hg : continue_running cfg.actions cfg.asserts rc
      (entryAt state cfg.name).actionsData (entryAt state cfg.name).assertStatuses = false) :
    runTestLoop o cfg hostnames keepGoing aliased (fuel + 1) state inc rc cc =
      some (.ok (state, inc, cc)) := by
  rw [runTestLoop.eq_def]
  simp [hg]

theorem runTestLoop_step (o : RunnerOracle) (cfg : TestConfig) (hostnames : List String)
    (aliased : Bool) (fuel : Nat) (state inc : EngineState) (rc : Int) (cc : Nat)
    (s1 i1 s2 i2 : EngineState)
    (hg : continue_running cfg.actions cfg.asserts rc
      (entryAt state cfg.name).actionsData (entryAt state cfg.name).assertStatuses = true)
    (hca : runCycleActions o cfg hostnames aliased state inc = .ok (s1, i1))
    (hcs : runCycleAsserts o cfg hostnames aliased s1 i1 = .ok (s2, i2)) :
    runTestLoop o cfg hostnames none aliased (fuel + 1) state inc rc cc =
      runTestLoop o cfg hostnames none aliased fuel s2 i2 (rc - 1) (cc + 1) := by
  rw [runTestLoop.eq_def]
  simp [hg, hca, hcs]


theorem run_test_unfold_ok (o : RunnerOracle) (fuel : Nat) (cfg : TestConfig)
    (incoming : EngineState) (hostnames : List String) (keepGoing : Option (Nat → Bool))
    (hne : hostnames.isEmpty = false)
    (acts2 : List Action) (asrts2 : List Assert)
    (hva : verify_action_names cfg.actions cfg = .ok acts2)
    (hvs : verify_assert_names cfg.asserts cfg = .ok asrts2)
    (st inc : EngineState) (cc : Nat)
    (hloop : runTestLoop o { cfg with actions := acts2, asserts := asrts2 } hostnames
      keepGoing ((incoming cfg.name).isSome) fuel incoming incoming
      (cfg.cycles?.getD (get_default_cycles cfg.actions cfg.asserts)) 0 =
      some (.ok (st, inc, cc))) :
    run_test o fuel cfg incoming hostnames keepGoing = some (.ok
      { state := (updateEntry st inc ((incoming cfg.name).isSome) cfg.name
          (fun e => { e with summary? := some (mkRunSummary cfg cc ((get_remaining_asserts asrts2 (entryAt st cfg.name).assertStatuses).map Assert.getName)) })).1
        incomingAfter := (updateEntry st inc ((incoming cfg.name).isSome) cfg.name
          (fun e => { e with summary? := some (mkRunSummary cfg cc ((get_remaining_asserts asrts2 (entryAt st cfg.name).assertStatuses).map Assert.getName)) })).2
        updatedConfig := { cfg with actions := acts2, asserts := asrts2 }
        completedCycles := cc }) := by
  unfold run_test
  rw [hne, hva, hvs]
  dsimp only
  rw [hloop]
  simp [mkRunSummary]


theorem forall₂_asserts_nil (l1 l2 : List Action)
    (h : List.Forall₂ (fun a b => b.asserts = assignInner a.asserts) l1 l2)
    (h2 : ∀ a ∈ l1, a.asserts = []) : ∀ b ∈ l2, b.asserts = [] := by
  induction h with
  | nil => simp
  | @cons a b la lb hab htail ih =>
    intro x hx
    rcases List.mem_cons.mp hx with hx1 | hx2
    · subst hx1
      rw [hab, h2 a (by simp)]
      rfl
    · exact ih (fun y hy => h2 y (by simp [hy])) x hx2

/-- C6 (amended): `get_default_cycles` is 0 with no actions and no
asserts, 1 with actions but no top-level or inner asserts, and -1 as
soon as any top-level or inner assert exists; a test with no actions, no
asserts AND `cycles` unset completes 0 cycles and its state entry holds
only a summary; a test with actions, no asserts and `cycles` unset
completes exactly 1 cycle.  (Without the `cycles`-unset qualifier the
0-cycle part of the claim is false: see the counterexample.) -/
theorem c6_default_cycles_and_cycle_counts :
    (∀ (actions : List Action) (asserts : List Assert),
      (actions = [] → asserts = [] → get_default_cycles actions asserts = 0) ∧
      (actions ≠ [] → asserts = [] → (∀ a ∈ actions, a.asserts = []) →
        get_default_cycles actions asserts = 1) ∧
      ((asserts ≠ [] ∨ ∃ a ∈ actions, a.asserts ≠ []) →
        get_default_cycles actions asserts = -1)) ∧
    (∀ (o : RunnerOracle) (fuel : Nat) (cfg : TestConfig) (incoming : EngineState)
        (hostnames : List String),
      cfg.actions = [] → cfg.asserts = [] → cfg.cycles? = none → hostnames ≠ [] →
      ((run_test o (fuel + 1) cfg incoming hostnames none).map
          (Except.map (fun r => r.completedCycles)) = some (.ok 0) ∧
       (incoming cfg.name = none →
        (run_test o (fuel + 1) cfg incoming hostnames none).map
          (Except.map (fun r => r.state cfg.name)) =
          some (.ok (some { actions? := none, asserts? := none, summary? := some (mkRunSummary cfg 0 []) }))))) ∧
    (∀ (o : RunnerOracle) (fuel : Nat) (cfg : TestConfig) (incoming : EngineState)
        (hostnames : List String) (acts2 : List Action),
      cfg.asserts = [] → (∀ a ∈ cfg.actions, a.asserts = []) → cfg.actions ≠ [] →
      cfg.cycles? = none →
      (cfg.actionDistributionStrategy? = none ∨
        cfg.actionDistributionStrategy? = some "parallel" ∨
        cfg.actionDistributionStrategy? = some "series") →
      hostnames ≠ [] →
      verify_action_names cfg.actions cfg = .ok acts2 →
      (run_test o (fuel + 2) cfg incoming hostnames none).map
        (Except.map (fun r => r.completedCycles)) = some (.ok 1)) := by
  refine ⟨?_, ?_, ?_⟩
  · intro actions asserts
    refine ⟨?_, ?_, ?_⟩
    · intro ha hs
      subst ha; subst hs
      rfl
    · intro ha hs hin
      subst hs
      unfold get_default_cycles
      rw [(actions_have_asserts_false_iff actions).mpr hin]
      simp [(isEmpty_false_iff actions).mpr ha]
    · intro hor
      unfold get_default_cycles
      rcases hor with hs | hin
      · have h2 : asserts.isEmpty = false := (isEmpty_false_iff asserts).mpr hs
        simp [h2]
      · rw [(actions_have_asserts_true_iff actions).mpr hin]
        simp
  · intro o fuel cfg incoming hostnames ha hs hc hh
    have hne : hostnames.isEmpty = false := (isEmpty_false_iff hostnames).mpr hh
    have hva : verify_action_names cfg.actions cfg = .ok [] := by rw [ha]; rfl
    have hvs : verify_assert_names cfg.asserts cfg = .ok [] := by rw [hs]; rfl
    have hrc : cfg.cycles?.getD (get_default_cycles cfg.actions cfg.asserts) = 0 := by
      rw [hc, ha, hs]; rfl
    have hl : runTestLoop o { cfg with actions := [], asserts := [] } hostnames none
        ((incoming cfg.name).isSome) (fuel + 1) incoming incoming
        (cfg.cycles?.getD (get_default_cycles cfg.actions cfg.asserts)) 0 =
        some (.ok (incoming, incoming, 0)) := by
      rw [hrc]
      exact runTestLoop_exit o _ hostnames none _ fuel incoming incoming 0 0 rfl
    have heq := run_test_unfold_ok o (fuel + 1) cfg incoming hostnames none hne
      [] [] hva hvs incoming incoming 0 hl
    constructor
    · rw [heq]; rfl
    · intro hnone
      rw [heq]
      simp [updateEntry, setEntry, entryAt, hnone, get_remaining_asserts, mkRunSummary, Except.map]
  · intro o fuel cfg incoming hostnames acts2 hs hinner hne0 hc hstrat hh hva
    have hne : hostnames.isEmpty = false := (isEmpty_false_iff hostnames).mpr hh
    have hvs : verify_assert_names cfg.asserts cfg = .ok [] := by rw [hs]; rfl
    have hf2 := (verify_action_names_ok_props cfg.actions cfg acts2 hva).1
    have hlen : acts2 ≠ [] := by
      intro hnil
      have hle := hf2.length_eq
      rw [hnil] at hle
      exact hne0 (List.length_eq_zero.mp (by simpa using hle))
    have hnoin : ∀ b ∈ acts2, b.asserts = [] := forall₂_asserts_nil _ _ hf2 hinner
    have hahha : actions_have_asserts acts2 = false :=
      (actions_have_asserts_false_iff acts2).mpr hnoin
    have hrc : cfg.cycles?.getD (get_default_cycles cfg.actions cfg.asserts) = 1 := by
      rw [hc]
      unfold get_default_cycles
      rw [hs, (actions_have_asserts_false_iff cfg.actions).mpr hinner]
      simp [(isEmpty_false_iff cfg.actions).mpr hne0]
    obtain ⟨s1, i1, hca⟩ : ∃ s1 i1,
        runCycleActions o { cfg with actions := acts2, asserts := [] } hostnames
          ((incoming cfg.name).isSome) incoming incoming = .ok (s1, i1) := by
      unfold runCycleActions
      rw [if_neg (by simpa using (isEmpty_false_iff acts2).mpr hlen)]
      rcases hstrat with h | h | h <;> (simp [h]; exact ⟨_, _, rfl⟩)
    have hcs : runCycleAsserts o { cfg with actions := acts2, asserts := [] } hostnames
        ((incoming cfg.name).isSome) s1 i1 = .ok (s1, i1) := rfl
    have hg1 : continue_running acts2 ([] : List Assert) 1
        (entryAt incoming cfg.name).actionsData (entryAt incoming cfg.name).assertStatuses
        = true := by
      simp [continue_running, hahha]
    have hg0 : continue_running acts2 ([] : List Assert) 0
        (entryAt s1 cfg.name).actionsData (entryAt s1 cfg.name).assertStatuses = false := by
      simp [continue_running, hahha]
    have hl : runTestLoop o { cfg with actions := acts2, asserts := [] } hostnames none
        ((incoming cfg.name).isSome) (fuel + 2) incoming incoming
        (cfg.cycles?.getD (get_default_cycles cfg.actions cfg.asserts)) 0 =
        some (.ok (s1, i1, 1)) := by
      rw [hrc]
      rw [runTestLoop_step o _ hostnames _ (fuel + 1) incoming incoming 1 0 s1 i1 s1 i1
        hg1 hca hcs]
      norm_num
      exact runTestLoop_exit o _ hostnames none _ fuel s1 i1 0 1 hg0
    have heq := run_test_unfold_ok o (fuel + 2) cfg incoming hostnames none hne
      acts2 [] hva hvs s1 i1 1 hl
    rw [heq]
    rfl


/-- C6 counterexample: a test config with no actions and no asserts but
an explicit `cycles: 2` completes 2 cycles, not 0 — the loop guard only
checks `remaining_cycles != 0` when there are no asserts, so the idle
loop runs the full explicit budget. -/
theorem c6_counterexample :
    ({ name := "t", cycles? := some 2 } : TestConfig).actions = [] ∧
    ({ name := "t", cycles? := some 2 } : TestConfig).asserts = [] ∧
    ((run_test trivialOracle 3 { name := "t", cycles? := some 2 }
        (fun _ => none) ["h"] none).map
      (Except.map (fun r => r.completedCycles))) = some (.ok 2) :=
  ⟨rfl, rfl, rfl⟩

theorem c6_witness :
    get_default_cycles [] [] = 0 ∧
    get_default_cycles [{ type? := some "POST" }] [] = 1 ∧
    get_default_cycles [] [{ type? := some "equals" }] = -1 ∧
    ((run_test trivialOracle 1 { name := "t" } (fun _ => none) ["h"] none).map
      (Except.map (fun r => r.completedCycles)) = some (.ok 0)) ∧
    ((run_test trivialOracle 2 { name := "t", actions := [{ type? := some "POST" }] }
        (fun _ => none) ["h"] none).map
      (Except.map (fun r => r.completedCycles)) = some (.ok 1)) :=
  ⟨(c6_default_cycles_and_cycle_counts.1 [] []).1 rfl rfl,
   (c6_default_cycles_and_cycle_counts.1 [{ type? := some "POST" }] []).2.1
     (by decide) rfl (by decide),
   (c6_default_cycles_and_cycle_counts.1 [] [{ type? := some "equals" }]).2.2
     (Or.inl (by decide)),
   ((c6_default_cycles_and_cycle_counts.2.1 trivialOracle 0 { name := "t" }
     (fun _ => none) ["h"] rfl rfl rfl (by decide)).1),
   (c6_default_cycles_and_cycle_counts.2.2 trivialOracle 0
     { name := "t", actions := [{ type? := some "POST" }] }
     (fun _ => none) ["h"] _ rfl (by decide) (by decide) rfl (Or.inl rfl) (by decide) rfl)⟩


theorem cycleZip_cur_nil (orig : List α) (hne : orig ≠ []) (items : List β) :
    cycleZip orig items [] = cycleZip orig items orig := by
  cases items with
  | nil => rfl
  | cons b bs =>
    cases orig with
    | nil => exact absurd rfl hne
    | cons h t => rfl

theorem cycleZip_eq_rrSpec (hs : List String) (hne : hs ≠ []) :
    ∀ (items : List β) (j : Nat),
    cycleZip hs items (hs.drop (j % hs.length)) = rrSpec hs j items := by
  intro items
  induction items with
  | nil => intro j; rfl
  | cons b bs ih =>
    intro j
    have hm : 0 < hs.length := List.length_pos.mpr hne
    have hr : j % hs.length < hs.length := Nat.mod_lt _ hm
    rw [List.drop_eq_getElem_cons hr]
    show (hs[j % hs.length], b) :: cycleZip hs bs (hs.drop (j % hs.length + 1)) =
      (hs.getD (j % hs.length) "", b) :: rrSpec hs (j + 1) bs
    rw [List.getD_eq_getElem hs "" hr]
    congr 1
    by_cases hcase : j % hs.length + 1 < hs.length
    · have h2 : 1 % hs.length = 1 := Nat.mod_eq_of_lt (by omega)
      have h1 : (j + 1) % hs.length = j % hs.length + 1 := by
        rw [Nat.add_mod, h2, Nat.mod_eq_of_lt hcase]
      rw [← h1, ih (j + 1)]
    · have hlast : j % hs.length + 1 = hs.length := by omega
      have h0 : (j + 1) % hs.length = 0 := by
        rcases Nat.lt_or_ge 1 hs.length with hm2 | hm2
        · have h2 : 1 % hs.length = 1 := Nat.mod_eq_of_lt hm2
          rw [Nat.add_mod, h2, hlast, Nat.mod_self]
        · have hm1 : hs.length = 1 := by omega
          simp [hm1, Nat.mod_one]
      rw [hlast, List.drop_length]
      rw [cycleZip_cur_nil hs hne bs]
      have hx := ih (j + 1)
      rw [h0] at hx
      simpa using hx


theorem lookupShard_addPair_same (m : List (String × List β)) (h : String) (b : β) :
    lookupShard (addPair m h b) h = some ((lookupShard m h).getD [] ++ [b]) := by
  induction m with
  | nil => simp [addPair, lookupShard]
  | cons p rest ih =>
    obtain ⟨k, l⟩ := p
    by_cases hk : k = h
    · subst hk
      simp [addPair, lookupShard]
    · simp [addPair, lookupShard, hk, ih]

theorem lookupShard_addPair_ne (m : List (String × List β)) (h h2 : String) (b : β)
    (hne : h2 ≠ h) : lookupShard (addPair m h b) h2 = lookupShard m h2 := by
  induction m with
  | nil =>
    simp only [addPair, lookupShard]
    rw [if_neg (fun he => hne he.symm)]
  | cons p rest ih =>
    obtain ⟨k, l⟩ := p
    by_cases hk : k = h
    · subst hk
      simp only [addPair, lookupShard, if_pos rfl]
      rw [if_neg (fun he => hne he.symm), if_neg (fun he => hne he.symm)]
    · simp only [addPair, lookupShard, if_neg hk]
      by_cases hk2 : k = h2
      · rw [if_pos hk2, if_pos hk2]
      · rw [if_neg hk2, if_neg hk2]
        exact ih

theorem lookupShard_foldl (pairs : List (String × β)) :
    ∀ (acc : List (String × List β)) (h : String),
    (lookupShard (pairs.foldl (fun m p => addPair m p.1 p.2) acc) h).getD [] =
      (lookupShard acc h).getD [] ++ ((pairs.filter (fun p => p.1 = h)).map Prod.snd) := by
  induction pairs with
  | nil => intro acc h; simp
  | cons p rest ih =>
    intro acc h
    obtain ⟨k, b⟩ := p
    simp only [List.foldl_cons]
    rw [ih (addPair acc k b) h]
    by_cases hk : k = h
    · subst hk
      rw [lookupShard_addPair_same]
      simp [List.filter_cons]
    · rw [lookupShard_addPair_ne acc k h b (fun he => hk he.symm)]
      simp [List.filter_cons, hk]

theorem lookupShard_buildShardMap (pairs : List (String × β)) (h : String) :
    (lookupShard (buildShardMap pairs) h).getD [] =
      ((pairs.filter (fun p => p.1 = h)).map Prod.snd) := by
  unfold buildShardMap
  rw [lookupShard_foldl pairs [] h]
  simp [lookupShard]


theorem rrSpec_filter_eq (hs : List String) (hnd : hs.Nodup) (j : Nat)
    (hj : j < hs.length) :
    ∀ (items : List β) (j0 : Nat),
    ((rrSpec hs j0 items).filter (fun p => p.1 = hs.getD j "")).map Prod.snd =
      ((items.enumFrom j0).filter (fun p => p.1 % hs.length = j)).map Prod.snd := by
  intro items
  induction items with
  | nil => intro j0; rfl
  | cons b bs ih =>
    intro j0
    have hm : 0 < hs.length := by omega
    have hr : j0 % hs.length < hs.length := Nat.mod_lt _ hm
    have hiff : (hs.getD (j0 % hs.length) "" = hs.getD j "") ↔ (j0 % hs.length = j) := by
      rw [List.getD_eq_getElem hs "" hr, List.getD_eq_getElem hs "" hj]
      exact hnd.getElem_inj_iff
    show ((((hs.getD (j0 % hs.length) "", b)) :: rrSpec hs (j0 + 1) bs).filter
        (fun p => p.1 = hs.getD j "")).map Prod.snd = _
    rw [List.filter_cons]
    by_cases hcase : j0 % hs.length = j
    · rw [if_pos (by simpa using hiff.mpr hcase)]
      show b :: _ = _
      have : List.enumFrom j0 (b :: bs) = (j0, b) :: List.enumFrom (j0 + 1) bs := rfl
      rw [this, List.filter_cons, if_pos (by simpa using hcase)]
      show _ = b :: _
      rw [ih (j0 + 1)]
    · rw [if_neg (by simpa using fun he => hcase (hiff.mp he))]
      have : List.enumFrom j0 (b :: bs) = (j0, b) :: List.enumFrom (j0 + 1) bs := rfl
      rw [this, List.filter_cons, if_neg (by simpa using hcase)]
      exact ih (j0 + 1)

theorem cycleZip_length (orig : List α) (hne : orig ≠ []) :
    ∀ (items : List β) (cur : List α),
    (cycleZip orig items cur).length = items.length := by
  intro items
  induction items with
  | nil => intro cur; rfl
  | cons b bs ih =>
    intro cur
    cases cur with
    | cons h t => simp [cycleZip, ih]
    | nil =>
      cases orig with
      | nil => exact absurd rfl hne
      | cons h t => simp [cycleZip, ih]

theorem sumLens_addPair (m : List (String × List β)) (h : String) (b : β) :
    ((addPair m h b).map (fun p => p.2.length)).sum =
      (m.map (fun p => p.2.length)).sum + 1 := by
  induction m with
  | nil => simp [addPair]
  | cons p rest ih =>
    obtain ⟨k, l⟩ := p
    by_cases hk : k = h
    · simp [addPair, hk]
      omega
    · simp [addPair, hk, ih]
      omega

theorem sumLens_foldl (pairs : List (String × β)) :
    ∀ (acc : List (String × List β)),
    ((pairs.foldl (fun m p => addPair m p.1 p.2) acc).map (fun p => p.2.length)).sum =
      (acc.map (fun p => p.2.length)).sum + pairs.length := by
  induction pairs with
  | nil => intro acc; simp
  | cons p rest ih =>
    intro acc
    simp only [List.foldl_cons]
    rw [ih (addPair acc p.1 p.2), sumLens_addPair]
    simp
    omega

theorem sumLens_buildShardMap (pairs : List (String × β)) :
    ((buildShardMap pairs).map (fun p => p.2.length)).sum = pairs.length := by
  unfold buildShardMap
  rw [sumLens_foldl pairs []]
  simp


theorem sum_const_len (hs : List String) (k : Nat) :
    (hs.map (fun _ => k)).sum = hs.length * k := by
  induction hs with
  | nil => simp
  | cons h t ih => simp [ih, Nat.succ_mul]; omega

/-- C7: the parallel strategy plan hands the entire item list, in input
order, to every hostname (m shards, m*k item dispatches per cycle); the
series strategy plan round-robins item i (0-based) to hostname i mod m,
preserving input order inside each shard, and dispatches each item
exactly once (k dispatches per cycle in total). -/
theorem c7_distribution_strategies :
    (∀ (β : Type) (hostnames : List String) (items : List β),
      (parallelPlan hostnames items).length = hostnames.length ∧
      (∀ p ∈ parallelPlan hostnames items, p.2 = items) ∧
      ((parallelPlan hostnames items).map (fun p => p.2.length)).sum =
        hostnames.length * items.length) ∧
    (∀ (β : Type) (hostnames : List String) (items : List β),
      hostnames.Nodup → hostnames ≠ [] →
      ((∀ j, j < hostnames.length →
        (lookupShard (seriesPlan hostnames items) (hostnames.getD j "")).getD [] =
          ((items.enumFrom 0).filter (fun p => p.1 % hostnames.length = j)).map Prod.snd) ∧
      ((seriesPlan hostnames items).map (fun p => p.2.length)).sum = items.length)) := by
  constructor
  · intro β hostnames items
    refine ⟨by simp [parallelPlan], ?_, ?_⟩
    · intro p hp
      simp only [parallelPlan, List.mem_map] at hp
      obtain ⟨h, _, hp2⟩ := hp
      rw [← hp2]
    · simp only [parallelPlan, List.map_map]
      have : ((fun p : String × List β => p.2.length) ∘ fun h => (h, items)) =
          fun _ => items.length := rfl
      rw [this, sum_const_len]
  · intro β hostnames items hnd hne
    have hzip : cycleZip hostnames items hostnames = rrSpec hostnames 0 items := by
      have := cycleZip_eq_rrSpec hostnames hne items 0
      simpa using this
    constructor
    · intro j hj
      unfold seriesPlan
      rw [lookupShard_buildShardMap, hzip]
      exact rrSpec_filter_eq hostnames hnd j hj items 0
    · unfold seriesPlan
      rw [sumLens_buildShardMap, cycleZip_length hostnames hne items hostnames]

theorem c7_witness :
    ((lookupShard (seriesPlan ["h1", "h2"] ([10, 20, 30] : List Nat))
        (["h1", "h2"].getD 0 "")).getD [] =
      ((([10, 20, 30] : List Nat).enumFrom 0).filter
        (fun p => p.1 % (["h1", "h2"] : List String).length = 0)).map Prod.snd) ∧
    ((seriesPlan ["h1", "h2"] ([10, 20, 30] : List Nat)).map
      (fun p => p.2.length)).sum = 3 :=
  ⟨(c7_distribution_strategies.2 Nat ["h1", "h2"] [10, 20, 30]
      (by decide) (by decide)).1 0 (by decide),
   (c7_distribution_strategies.2 Nat ["h1", "h2"] [10, 20, 30]
      (by decide) (by decide)).2⟩


theorem addPair_values (m : List (String × List β)) (h : String) (b : β) :
    ∀ p ∈ addPair m h b, ∀ x ∈ p.2, (∃ q ∈ m, x ∈ q.2) ∨ x = b := by
  induction m with
  | nil =>
    intro p hp x hx
    simp [addPair] at hp
    subst hp
    simp at hx
    exact Or.inr hx
  | cons q rest ih =>
    intro p hp x hx
    obtain ⟨k, l⟩ := q
    by_cases hk : k = h
    · simp only [addPair, if_pos hk] at hp
      rcases List.mem_cons.mp hp with hp1 | hp2
      · subst hp1
        simp at hx
        rcases hx with hx1 | hx2
        · exact Or.inl ⟨(k, l), by simp, hx1⟩
        · exact Or.inr hx2
      · exact Or.inl ⟨p, by simp [hp2], hx⟩
    · simp only [addPair, if_neg hk] at hp
      rcases List.mem_cons.mp hp with hp1 | hp2
      · subst hp1
        exact Or.inl ⟨(k, l), by simp, hx⟩
      · rcases ih p hp2 x hx with ⟨q2, hq2, hxq⟩ | hxb
        · exact Or.inl ⟨q2, by simp [hq2], hxq⟩
        · exact Or.inr hxb

theorem foldl_shard_values (pairs : List (String × β)) :
    ∀ (acc : List (String × List β)) (p : String × List β),
    p ∈ pairs.foldl (fun m q => addPair m q.1 q.2) acc → ∀ x ∈ p.2,
    (∃ q ∈ acc, x ∈ q.2) ∨ x ∈ pairs.map Prod.snd := by
  induction pairs with
  | nil =>
    intro acc p hp x hx
    exact Or.inl ⟨p, by simpa using hp, hx⟩
  | cons q rest ih =>
    intro acc p hp x hx
    simp only [List.foldl_cons] at hp
    rcases ih (addPair acc q.1 q.2) p hp x hx with ⟨q2, hq2, hxq⟩ | hxrest
    · rcases addPair_values acc q.1 q.2 q2 hq2 x hxq with ⟨q3, hq3, hxq3⟩ | hxb
      · exact Or.inl ⟨q3, hq3, hxq3⟩
      · exact Or.inr (by simp [hxb])
    · exact Or.inr (by simp [hxrest])

theorem buildShardMap_values (pairs : List (String × β)) (p : String × List β)
    (hp : p ∈ buildShardMap pairs) : ∀ x ∈ p.2, x ∈ pairs.map Prod.snd := by
  intro x hx
  rcases foldl_shard_values pairs [] p hp x hx with ⟨q, hq, _⟩ | hm
  · simp at hq
  · exact hm

theorem cycleZip_map_snd (orig : List α) (hne : orig ≠ []) :
    ∀ (items : List β) (cur : List α),
    (cycleZip orig items cur).map Prod.snd = items := by
  intro items
  induction items with
  | nil => intro cur; rfl
  | cons b bs ih =>
    intro cur
    cases cur with
    | cons h t => simp [cycleZip, ih]
    | nil =>
      cases orig with
      | nil => exact absurd rfl hne
      | cons h t => simp [cycleZip, ih]

theorem remaining_mem (asserts : List Assert) (st : Statuses) (a : Assert)
    (ha : a ∈ get_remaining_asserts asserts st) :
    a ∈ asserts ∧ assertSatisfied st a.getName = false := by
  unfold get_remaining_asserts at ha
  have := List.of_mem_filter ha
  exact ⟨List.mem_of_mem_filter ha, by simpa using this⟩

/-- C8: in both assert distribution strategies the dispatched shards are
built from `get_remaining_asserts`, so every assert handed to any
hostname is a member of the remaining (unsatisfied) asserts: an assert
whose recorded status under its name has passed set never appears in any
shard of either strategy. -/
theorem c8_only_remaining_asserts_dispatched :
    (∀ (asserts : List Assert) (st : Statuses) (hostnames : List String),
      ∀ p ∈ parallelPlan hostnames (get_remaining_asserts asserts st),
        ∀ a ∈ p.2, a ∈ asserts ∧ assertSatisfied st a.getName = false) ∧
    (∀ (asserts : List Assert) (st : Statuses) (hostnames : List String),
      hostnames ≠ [] →
      ∀ p ∈ seriesPlan hostnames (get_remaining_asserts asserts st),
        ∀ a ∈ p.2, a ∈ asserts ∧ assertSatisfied st a.getName = false) := by
  constructor
  · intro asserts st hostnames p hp a ha
    simp only [parallelPlan, List.mem_map] at hp
    obtain ⟨h, _, hp2⟩ := hp
    rw [← hp2] at ha
    exact remaining_mem asserts st a ha
  · intro asserts st hostnames hne p hp a ha
    have hx := buildShardMap_values _ p hp a ha
    rw [cycleZip_map_snd hostnames hne] at hx
    exact remaining_mem asserts st a hx

theorem c8_witness :
    ((["h"] : List String) ≠ []) ∧
    ((⟨some "t1", some "A"⟩ : Assert) ∈ [(⟨some "t1", some "A"⟩ : Assert), ⟨some "t2", some "B"⟩] ∧
      assertSatisfied (fun n => if n = "B" then some { passed := true, actual := none, expected := none, description := none } else none) (Assert.getName ⟨some "t1", some "A"⟩) = false) := by
  refine ⟨by decide, ?_⟩
  exact (c8_only_remaining_asserts_dispatched.2
    [⟨some "t1", some "A"⟩, ⟨some "t2", some "B"⟩]
    (fun n => if n = "B" then some { passed := true, actual := none, expected := none, description := none } else none)
    ["h"] (by decide)
    ("h", get_remaining_asserts [⟨some "t1", some "A"⟩, ⟨some "t2", some "B"⟩]
      (fun n => if n = "B" then some { passed := true, actual := none, expected := none, description := none } else none))
    (by decide) ⟨some "t1", some "A"⟩ (by decide))


theorem reap_ok (be : Backend) : ∀ (l : List Nat),
    (∀ r ∈ l, be.removeRunner r = none) → reap be l = (l, none) := by
  intro l
  induction l with
  | nil => intro _; rfl
  | cons r rest ih =>
    intro h
    simp only [reap]
    rw [h r (by simp)]
    rw [ih (fun x hx => h x (by simp [hx]))]

/-- C1 (amended): the closure reaps every provisioned runner on the
normal-completion path (which includes the cooperative-timeout path,
since `run_test_with_timeout` returns normally after a timeout) and on
the caught-execution-error path (where the reap loop even runs twice);
but when provisioning raises after creating some runners, and when the
Docker health gate fails after the container was started, nothing is
reaped before the error surfaces: the outer handler only synthesizes an
error summary. -/
theorem c1_runner_reaping (be : Backend)
    (render : TestConfig → EngineState → TestConfig)
    (body : EngineState → List String → Except PyErr EngineState)
    (cfg : TestConfig) (state : EngineState) (created : List Nat) (img : String)
    (himg : (match runner_to_image (render cfg state).runner? with
      | some i => some i
      | none => (render cfg state).image?) = some img) :
    (∀ (ns : EngineState),
      provision be ((render cfg state).runnerCount?.getD 1) 0 = (created, none) →
      (∀ r ∈ created, be.removeRunner r = none) →
      body state (created.map be.hostnameOf) = .ok ns →
      Runners.run_test be render body cfg state =
        .ok (mergeState state ns, { created := created, removed := created })) ∧
    (∀ (m : String),
      provision be ((render cfg state).runnerCount?.getD 1) 0 = (created, none) →
      (∀ r ∈ created, be.removeRunner r = none) →
      body state (created.map be.hostnameOf) = .error (.caught m) →
      Runners.run_test be render body cfg state =
        .ok (mergeState state (errorState cfg (render cfg state) m),
             { created := created, removed := created ++ created })) ∧
    (∀ (msg : String),
      provision be ((render cfg state).runnerCount?.getD 1) 0 = (created, some msg) →
      Runners.run_test be render body cfg state =
        .ok (mergeState state (errorState cfg cfg msg),
             { created := created, removed := [] })) ∧
    (∀ (env : DockerEnv) (cid : String),
      env.networkApiOk = true → env.networkExists = true → env.startOk = true →
      container_is_healthy env.checks env.maxRetries = false →
      create_docker_container env cid =
        ([.containerStarted cid], .error "Unable to successfully contact container")) := by
  refine ⟨?_, ?_, ?_, ?_⟩
  · intro ns hprov hrem hbody
    unfold Runners.run_test
    dsimp only
    rw [himg]
    dsimp only
    rw [hprov]
    dsimp only
    rw [hbody]
    rw [reap_ok be created hrem]
  · intro m hprov hrem hbody
    unfold Runners.run_test
    dsimp only
    rw [himg]
    dsimp only
    rw [hprov]
    dsimp only
    rw [hbody]
    rw [reap_ok be created hrem]
  · intro msg hprov
    unfold Runners.run_test
    dsimp only
    rw [himg]
    dsimp only
    rw [hprov]
  · intro env cid h1 h2 h3 h4
    unfold create_docker_container
    rw [h1, h2, h3, h4]
    rfl


/-- C1 counterexample: (i) with two runners requested, creation of the
second raising after the first was provisioned, the closure returns the
error summary with runner 7 created and nothing removed; (ii)
create_docker_container with a started container whose health gate fails
raises without emitting any containerStopped event. -/
theorem c1_counterexample :
    ((Runners.run_test cexBackendCreateFail idRender okBody cexClosureCfg
        (fun _ => none)).map Prod.snd = .ok { created := [7], removed := [] }) ∧
    (create_docker_container cexDockerEnvUnhealthy "c1" =
      ([.containerStarted "c1"], .error "Unable to successfully contact container")) :=
  ⟨rfl, rfl⟩

theorem c1_witness :
    (Runners.run_test okBackend idRender okBody cexClosureCfg1 (fun _ => none) =
      .ok (mergeState (fun _ => none) (fun _ => none),
           { created := [0], removed := [0] })) ∧
    (Runners.run_test cexBackendCreateFail idRender okBody cexClosureCfg (fun _ => none) =
      .ok (mergeState (fun _ => none) (errorState cexClosureCfg cexClosureCfg "create failed"),
           { created := [7], removed := [] })) ∧
    (create_docker_container cexDockerEnvUnhealthy "c1" =
      ([.containerStarted "c1"], .error "Unable to successfully contact container")) :=
  ⟨(c1_runner_reaping okBackend idRender okBody cexClosureCfg1 (fun _ => none)
      [0] "img" rfl).1 (fun _ => none) rfl (by decide) rfl,
   (c1_runner_reaping cexBackendCreateFail idRender okBody cexClosureCfg (fun _ => none)
      [7] "img" rfl).2.2.1 "create failed" rfl,
   (c1_runner_reaping cexBackendCreateFail idRender okBody cexClosureCfg (fun _ => none)
      [7] "img" rfl).2.2.2 cexDockerEnvUnhealthy "c1" rfl rfl rfl rfl⟩

/-- C3 (amended): a teardown error raised while removing a runner after
a successful test body is not merely logged: if the error is in the
caught families (RuntimeError etc., as raised by stop_kube_pod), the
outer handler replaces the state entry for the test with an error
summary, discarding the summary the body produced; if it is outside the
caught families (e.g. docker APIError from container.stop), it
propagates out of the closure. -/
theorem c3_teardown_error_alters_outcome (be : Backend)
    (render : TestConfig → EngineState → TestConfig)
    (body : EngineState → List String → Except PyErr EngineState)
    (cfg : TestConfig) (state : EngineState) (created rl : List Nat)
    (m img : String) (ns : EngineState)
    (himg : (match runner_to_image (render cfg state).runner? with
      | some i => some i
      | none => (render cfg state).image?) = some img)
    (hprov : provision be ((render cfg state).runnerCount?.getD 1) 0 = (created, none))
    (hbody : body state (created.map be.hostnameOf) = .ok ns) :
    (reap be created = (rl, some (.caught m)) →
      Runners.run_test be render body cfg state =
        .ok (mergeState state (errorState cfg cfg m), { created := created, removed := rl }) ∧
      (mergeState state (errorState cfg cfg m)) cfg.name =
        some { actions? := none, asserts? := none, summary? := some (errorSummary cfg m) }) ∧
    (reap be created = (rl, some (.uncaught m)) →
      Runners.run_test be render body cfg state = .error m) := by
  constructor
  · intro hreap
    constructor
    · unfold Runners.run_test
      dsimp only
      rw [himg]
      dsimp only
      rw [hprov]
      dsimp only
      rw [hbody, hreap]
    · simp [mergeState, errorState]
  · intro hreap
    unfold Runners.run_test
    dsimp only
    rw [himg]
    dsimp only
    rw [hprov]
    dsimp only
    rw [hbody, hreap]

/-- C3 counterexample: the body succeeds, leaving test `t` a summary
with completed_cycles 1 and no error; removing the runner raises a
caught error, and the closure returns an entry whose summary has error
"boom" and completed_cycles 0: the execution summary is discarded, so a
teardown error does alter the outcome. -/
theorem c3_counterexample :
    ((goodBodyState "t").map (fun e => e.summary?.map (fun s => (s.error?, s.completed_cycles)))
      = some (some (none, 1))) ∧
    ((Runners.run_test cexBackendRemoveFail idRender goodBody cexClosureCfg1
        (fun _ => none)).map
      (fun p => (p.1 "t").map (fun e => e.summary?.map (fun s => (s.error?, s.completed_cycles)))))
      = .ok (some (some (some "boom", 0))) :=
  ⟨rfl, rfl⟩

theorem c3_witness :
    (Runners.run_test cexBackendRemoveFail idRender goodBody cexClosureCfg1 (fun _ => none) =
      .ok (mergeState (fun _ => none) (errorState cexClosureCfg1 cexClosureCfg1 "boom"),
           { created := [1], removed := [] })) ∧
    ((mergeState (fun _ => none) (errorState cexClosureCfg1 cexClosureCfg1 "boom"))
        cexClosureCfg1.name =
      some { actions? := none, asserts? := none,
             summary? := some (errorSummary cexClosureCfg1 "boom") }) :=
  (c3_teardown_error_alters_outcome cexBackendRemoveFail idRender goodBody cexClosureCfg1
    (fun _ => none) [1] [] "boom" "img" goodBodyState rfl rfl rfl).1 rfl

end Cicada
